import Mathlib

/-!
Verification development for a Rust path tracer (modules `geometry.rs`,
`distribution.rs`, `rendering.rs`, `scene.rs`).

Modelling conventions:
* `f64` values are modelled by real numbers `ℝ` (idealised arithmetic).
* The box slab test divides by ray-direction components that are zero for
  ordinary axis-parallel rays, and the Rust code relies on IEEE semantics
  (`x/0 = ±inf`, `0/0 = NaN`, NaN-ignoring `f64::min`/`f64::max`) there.
  That arm is therefore modelled with an explicit extended type `F64`.
* Mutable RNG state is modelled by an abstract state type `R` threaded
  explicitly; the primitive generators are fields of `RngOps`.
* A Rust panic (`expect`) and the potentially diverging rejection-sampling
  loop are both modelled by `Option` (with fuel for the loop).
-/

noncomputable section

/-- Real 3-vector, modelling `nalgebra::Vector3<f64>`. -/
structure V3 where
  x : ℝ
  y : ℝ
  z : ℝ

instance : Zero V3 := ⟨⟨0, 0, 0⟩⟩

instance : Inhabited V3 := ⟨0⟩

instance : Add V3 := ⟨fun a b => ⟨a.x + b.x, a.y + b.y, a.z + b.z⟩⟩

instance : Sub V3 := ⟨fun a b => ⟨a.x - b.x, a.y - b.y, a.z - b.z⟩⟩

instance : Neg V3 := ⟨fun a => ⟨-a.x, -a.y, -a.z⟩⟩

/-- Scalar multiple `k * v` (Rust `v * k` on `Vector3<f64>`). -/
def V3.scale (k : ℝ) (v : V3) : V3 := ⟨k * v.x, k * v.y, k * v.z⟩

/-- Division of a vector by a scalar (Rust `v / k`). -/
def V3.divS (v : V3) (k : ℝ) : V3 := ⟨v.x / k, v.y / k, v.z / k⟩

/-- Dot product. -/
def V3.dot (a b : V3) : ℝ := a.x * b.x + a.y * b.y + a.z * b.z

/-- Componentwise product (`nalgebra component_mul`). -/
def V3.component_mul (a b : V3) : V3 := ⟨a.x * b.x, a.y * b.y, a.z * b.z⟩

/-- Componentwise quotient (`nalgebra component_div`). -/
def V3.component_div (a b : V3) : V3 := ⟨a.x / b.x, a.y / b.y, a.z / b.z⟩

/-- Cross product. -/
def V3.cross (a b : V3) : V3 :=
  ⟨a.y * b.z - a.z * b.y, a.z * b.x - a.x * b.z, a.x * b.y - a.y * b.x⟩

/-- Squared Euclidean norm (`norm_squared`). -/
def V3.norm_squared (v : V3) : ℝ := v.dot v

/-- Euclidean norm (`norm`). -/
def V3.norm (v : V3) : ℝ := Real.sqrt v.norm_squared

/-- Vector normalisation (`nalgebra .normalize()`: division by the norm,
with no zero check). -/
def V3.normalize (v : V3) : V3 := v.divS v.norm

/-- Unit quaternion `w + xi + yj + zk`, modelling `nalgebra::UnitQuaternion<f64>`.
The unit-norm invariant is not tracked; theorems quantifying over all `Quat`
cover all unit quaternions in particular. -/
structure Quat where
  w : ℝ
  x : ℝ
  y : ℝ
  z : ℝ

/-- The vector (imaginary) part of a quaternion. -/
def Quat.vec (q : Quat) : V3 := ⟨q.x, q.y, q.z⟩

/-- Quaternion conjugate. -/
def Quat.conjugate (q : Quat) : Quat := ⟨q.w, -q.x, -q.y, -q.z⟩

/-- Rotation of a vector by a unit quaternion
(`UnitQuaternion::transform_vector`): `v + 2w(u×v) + 2u×(u×v)`. -/
def Quat.transform_vector (q : Quat) (v : V3) : V3 :=
  v + V3.scale (2 * q.w) (q.vec.cross v) + V3.scale 2 (q.vec.cross (q.vec.cross v))

/-- IEEE-style extended value used to model the `f64` slab divisions of the
box intersection arm, where division by zero is meaningful. -/
inductive F64 where
  | nan : F64
  | pinf : F64
  | ninf : F64
  | fin (val : ℝ) : F64

/-- IEEE division of two finite reals: `x/0` is `±inf` (or NaN for `0/0`). -/
def rustDiv (x y : ℝ) : F64 :=
  if y = 0 then (if x = 0 then .nan else if 0 < x then .pinf else .ninf)
  else .fin (x / y)

/-- Strict `<` on `F64`; comparisons with NaN are false. -/
def F64.ltb : F64 → F64 → Bool
  | .fin a, .fin b => decide (a < b)
  | .fin _, .pinf => true
  | .ninf, .fin _ => true
  | .ninf, .pinf => true
  | _, _ => false

/-- Non-strict `≤` on `F64`; comparisons with NaN are false. -/
def F64.leb : F64 → F64 → Bool
  | .fin a, .fin b => decide (a ≤ b)
  | .fin _, .pinf => true
  | .ninf, .fin _ => true
  | .ninf, .pinf => true
  | .pinf, .pinf => true
  | .ninf, .ninf => true
  | _, _ => false

/-- Model of `f64::min`: if one argument is NaN the other is returned. -/
def rustMin (a b : F64) : F64 :=
  match a, b with
  | .nan, b => b
  | a, .nan => a
  | a, b => if F64.ltb b a then b else a

/-- Model of `f64::max`: if one argument is NaN the other is returned. -/
def rustMax (a b : F64) : F64 :=
  match a, b with
  | .nan, b => b
  | a, .nan => a
  | a, b => if F64.ltb a b then b else a

/-- The real carried by a finite `F64`; non-finite values map to a junk `0`
(they only arise in degenerate configurations outside the claims). -/
def F64.toReal : F64 → ℝ
  | .fin a => a
  | _ => 0

/-- Model of `f64::signum` on reals (`-1` for negatives, `1` otherwise). -/
def rustSignum (x : ℝ) : ℝ := if x < 0 then -1 else 1

/-- Shape variants from `geometry.rs`. -/
inductive Shape where
  | Plane (normal : V3) : Shape
  | Ellipsoid (r : V3) : Shape
  | Box (s : V3) : Shape

/-- Ray with origin and (not necessarily unit) direction. -/
structure Ray where
  point : V3
  direction : V3

/-- The self-intersection offset `EPS` from `geometry.rs`. -/
def EPS : ℝ := 0.0001

/-- Shifted-ray constructor `build_shifted_ray`. -/
def build_shifted_ray (point direction : V3) : Ray :=
  ⟨point + V3.scale EPS direction, direction⟩

/-- Quadratic solver from `geometry.rs`: returns the two roots in
ascending order, or `none` when the discriminant is negative. -/
def solve_quadratic_equation (a b c : ℝ) : Option (ℝ × ℝ) :=
  let discr := b * b - 4 * a * c
  if discr < 0 then none
  else
    let resolve1 := (-b - Real.sqrt discr) / (2 * a)
    let resolve2 := (-b + Real.sqrt discr) / (2 * a)
    some (min resolve1 resolve2, max resolve1 resolve2)

/-- Intersection record: hit parameters, one normal per parameter, and the
outside flag. -/
structure Intersection where
  ts : List ℝ
  normals : List V3
  outside : Bool

/-- The axis-snapping `normalize` helper of `geometry.rs` (used for box
normals): picks the dominant axis and the sign of that component.  (Named
`normalize_axis` here because `normalize` is taken by Mathlib.) -/
def normalize_axis (v : V3) : V3 :=
  if |v.x| ≥ |v.y| ∧ |v.x| ≥ |v.z| then ⟨rustSignum v.x, 0, 0⟩
  else if |v.y| ≥ |v.x| ∧ |v.y| ≥ |v.z| then ⟨0, rustSignum v.y, 0⟩
  else ⟨0, 0, rustSignum v.z⟩

/-- Ray–shape intersection in the shape's local frame (`intersect_shape`). -/
def intersect_shape (ray : Ray) (shape : Shape) : Option Intersection :=
  match shape with
  | .Plane normal =>
      let div := ray.direction.dot normal
      if |div| ≤ 0.00001 then none
      else
        let t := -(ray.point.dot normal) / div
        if t < 0 then none
        else
          let outside := decide (ray.direction.dot normal < 0)
          let normal_conjugated := if outside then normal else -normal
          some ⟨[t], [normal_conjugated.normalize], outside⟩
  | .Ellipsoid r =>
      let point_div_r := ray.point.component_div r
      let dir_div_r := ray.direction.component_div r
      ((solve_quadratic_equation (dir_div_r.dot dir_div_r)
          (2 * point_div_r.dot dir_div_r)
          (point_div_r.dot point_div_r - 1)).bind fun p =>
        if 0 ≤ p.1 then some ([p.1, p.2], true)
        else if 0 ≤ p.2 then some ([p.2], false)
        else none).map fun tso =>
          ⟨tso.1,
            tso.1.map fun t =>
              let p := ray.point + V3.scale t ray.direction
              let n := ((p.component_div r).component_div r).normalize
              if tso.2 then n else -n,
            tso.2⟩
  | .Box s =>
      let calc_in_and_out := fun (s_proj point_proj dir_proj : ℝ) =>
        let t0 := rustDiv (s_proj - point_proj) dir_proj
        let t1 := rustDiv (-s_proj - point_proj) dir_proj
        (rustMin t0 t1, rustMax t0 t1)
      let tx := calc_in_and_out s.x ray.point.x ray.direction.x
      let ty := calc_in_and_out s.y ray.point.y ray.direction.y
      let tz := calc_in_and_out s.z ray.point.z ray.direction.z
      let t0 := rustMax tx.1 (rustMax ty.1 tz.1)
      let t1 := rustMin tx.2 (rustMin ty.2 tz.2)
      (if F64.ltb t1 t0 || F64.ltb t1 (.fin 0) then none
       else if F64.leb (.fin 0) t0 then some ([t0.toReal, t1.toReal], true)
       else some ([t1.toReal], false)).map fun tso =>
        ⟨tso.1,
          tso.1.map fun t =>
            let p := ray.point + V3.scale t ray.direction
            if tso.2 then normalize_axis (p.component_div s)
            else -(normalize_axis (p.component_div s)),
          tso.2⟩

/-- Material variants from `scene.rs`. -/
inductive Material where
  | METALLIC : Material
  | DIELECTRIC (ior : ℝ) : Material
  | DIFFUSE : Material

/-- Scene primitive from `scene.rs`. -/
structure Primitive where
  shape : Shape
  color : V3
  position : V3
  rotation : Quat
  material : Material
  emission : V3

/-- Light source kind from `scene.rs` (not used by the integrator under
verification, kept for scene fidelity). -/
inductive LightType where
  | Point (position attenuation : V3) : LightType
  | Directed (direction : V3) : LightType

/-- Light record from `scene.rs`. -/
structure Light where
  intensity : V3
  ltype : LightType

/-- Camera from `scene.rs`. -/
structure Camera where
  position : V3
  right_axis : V3
  up_axis : V3
  forward_axis : V3
  fov_x : ℝ
  fov_y : ℝ

/-- Scene from `scene.rs`. -/
structure Scene where
  width : ℕ
  height : ℕ
  background_color : V3
  camera : Camera
  primitives : List Primitive
  ray_depth : ℕ
  ambient_light : V3
  lights : List Light
  samples : ℕ

/-- Transformation of a world ray into a primitive's local frame: undo the
translation, then undo the rotation via the conjugate quaternion (the common
prelude of `intersect_primitive` and `intersect_scene`). -/
def to_local_ray (ray : Ray) (primitive : Primitive) : Ray :=
  ⟨primitive.rotation.conjugate.transform_vector (ray.point - primitive.position),
   primitive.rotation.conjugate.transform_vector ray.direction⟩

/-- Ray–primitive intersection (`intersect_primitive`): transforms the ray to
the local frame and runs `intersect_shape`; the result is returned as is. -/
def intersect_primitive (ray : Ray) (primitive : Primitive) : Option Intersection :=
  intersect_shape (to_local_ray ray primitive) primitive.shape

/-- Per-primitive candidate produced inside `intersect_scene`'s `filter_map`
closure: local-frame intersection with the normals rotated back to world
space. -/
def scene_candidate (ray : Ray) (primitive : Primitive) :
    Option (Intersection × Primitive) :=
  (intersect_shape (to_local_ray ray primitive) primitive.shape).map fun inter =>
    (⟨inter.ts, inter.normals.map primitive.rotation.transform_vector,
      inter.outside⟩, primitive)

/-- Model of `Iterator::min_by` keyed on the first root: the comparison is
total over `ℝ` (the `partial_cmp` NaN panic is unreachable in the real-valued
model); on equal keys the later element is kept, as documented for `min_by`. -/
def minByFirstRoot (l : List (Intersection × Primitive)) :
    Option (Intersection × Primitive) :=
  match l with
  | [] => none
  | h :: t =>
      some (t.foldl (fun acc xy => if acc.1.ts.headI < xy.1.ts.headI then acc else xy) h)

/-- Scene-wide nearest-hit query (`intersect_scene`) with the optional
distance cap. -/
def intersect_scene (ray : Ray) (scene : Scene) (distance_cap : Option ℝ) :
    Option (Intersection × Primitive) :=
  match minByFirstRoot (scene.primitives.filterMap (scene_candidate ray)) with
  | none => none
  | some ip =>
      match distance_cap with
      | some val =>
          if val < ip.1.ts.headI * ray.direction.norm then none else some ip
      | none => some ip

/-- Abstract source of randomness: the primitive generators the code draws
from, over an explicit state type `R` (modelling `&mut ThreadRng`). -/
structure RngOps (R : Type) where
  genRange : ℝ → ℝ → R → ℝ × R
  genBool : R → Bool × R
  genF : R → ℝ × R
  pickIdx : R → ℕ → ℕ × R

/-- A `dyn DistributionTooling` trait object: `sample` may fail (panic or
diverge), modelled by `Option`; `pdf` is a plain function. -/
structure DistrImpl (R : Type) where
  sample : R → V3 → V3 → Option (V3 × R)
  pdf : V3 → V3 → V3 → ℝ

/-- Rejection sampler `generate_unit_on_sphere`: draws points uniformly in
the cube until one lands in the unit ball, then normalises.  The recursion is
only probabilistically terminating, so it takes explicit fuel; `none` models
an unproductive random stream. -/
def generate_unit_on_sphere {R : Type} (ops : RngOps R) :
    ℕ → R → Option (V3 × R)
  | 0, _ => none
  | fuel + 1, rng =>
      let px := ops.genRange (-1) 1 rng
      let py := ops.genRange (-1) 1 px.2
      let pz := ops.genRange (-1) 1 py.2
      let direction : V3 := ⟨px.1, py.1, pz.1⟩
      if 1 < direction.norm then generate_unit_on_sphere ops fuel pz.2
      else some (direction.normalize, pz.2)

/-- The cosine-weighted hemisphere distribution (`CosineWeightedDistr`). -/
def CosineWeightedDistr {R : Type} (ops : RngOps R) (fuel : ℕ) : DistrImpl R where
  sample := fun rng _point_from normal_from =>
    (generate_unit_on_sphere ops fuel rng).map fun ur =>
      ((ur.1 + normal_from).normalize, ur.2)
  pdf := fun _point_from normal_from direction =>
    max 0 (direction.normalize.dot normal_from / Real.pi)

/-- Local-frame area density used by `LightSourceDistr::pdf` at a local hit
point: zero (`Default::default()`) for planes, the reciprocal surface area
for boxes, and the ellipsoid surface density formula. -/
def light_local_pdf (shape : Shape) (local_point : V3) : ℝ :=
  match shape with
  | .Plane _ => 0
  | .Box s => 1 / 8 / (s.x * s.y + s.x * s.z + s.y * s.z)
  | .Ellipsoid r =>
      let n := local_point.component_div r
      1 / 4 / Real.pi /
        Real.sqrt ((n.x * r.y * r.z) ^ 2 + (r.x * n.y * r.z) ^ 2 +
          (r.x * r.y * n.z) ^ 2)

/-- Density evaluation of `LightSourceDistr::pdf`: intersects the ray
`(point_from, direction)` — untransformed — against the primitive's shape in
its canonical local frame and sums the area-to-solid-angle converted local
densities over all roots; `0` on a miss. -/
def LightSourceDistr_pdf (primitive : Primitive)
    (point_from _normal_from direction : V3) : ℝ :=
  match intersect_shape ⟨point_from, direction⟩ primitive.shape with
  | none => 0
  | some intersection =>
      ((intersection.ts.zip intersection.normals).map fun tn =>
        let intersection_point := point_from + V3.scale tn.1 direction
        let local_point := primitive.rotation.conjugate.transform_vector
          (intersection_point - primitive.position)
        let local_pdf := light_local_pdf primitive.shape local_point
        let vector_on_sample := intersection_point - point_from
        let omega := vector_on_sample.normalize
        local_pdf * (vector_on_sample.norm_squared / |tn.2.dot omega|)).sum

/-- Surface sampler of `LightSourceDistr::sample`: random local surface
point, transformed to world space, then the normalised direction from
`point_from` to it. -/
def LightSourceDistr_sample {R : Type} (ops : RngOps R) (fuel : ℕ)
    (primitive : Primitive) (rng : R) (point_from : V3) : Option (V3 × R) :=
  ((match primitive.shape, rng with
   | .Plane _, rng => some ((0 : V3), rng)
   | .Box s, rng =>
       let w_x := 4 * s.y * s.z
       let w_y := 4 * s.x * s.z
       let w_z := 4 * s.x * s.y
       let pface := ops.genRange 0 (w_x + w_y + w_z) rng
       let pb := ops.genBool pface.2
       let rnd_sign : ℝ := if pb.1 then 1 else -1
       let p1 := ops.genRange (-1) 1 pb.2
       let p2 := ops.genRange (-1) 1 p1.2
       let pt : V3 :=
         if pface.1 < w_x then ⟨s.x * rnd_sign, s.y * p1.1, s.z * p2.1⟩
         else if pface.1 < w_x + w_y then ⟨s.x * p1.1, s.y * rnd_sign, s.z * p2.1⟩
         else ⟨s.x * p1.1, s.y * p2.1, s.z * rnd_sign⟩
       some (pt, p2.2)
   | .Ellipsoid r, rng =>
       (generate_unit_on_sphere ops fuel rng).map fun ur =>
         (ur.1.component_mul r, ur.2) : Option (V3 × R))).map fun pr =>
    ((primitive.rotation.transform_vector pr.1 + primitive.position -
      point_from).normalize, pr.2)

/-- The per-light-primitive distribution (`LightSourceDistr`). -/
def LightSourceDistr {R : Type} (ops : RngOps R) (fuel : ℕ)
    (primitive : Primitive) : DistrImpl R where
  sample := fun rng point_from _normal_from =>
    LightSourceDistr_sample ops fuel primitive rng point_from
  pdf := fun point_from normal_from direction =>
    LightSourceDistr_pdf primitive point_from normal_from direction

/-- The uniform mixture combinator (`MixDistr`): `sample` chooses a member
uniformly (`choose` returns `None` — a panic behind `expect` — exactly when
the member list is empty) and delegates; `pdf` averages the member
densities. -/
def MixDistr {R : Type} (ops : RngOps R) (distribs : List (DistrImpl R)) :
    DistrImpl R where
  sample := fun rng point_from normal =>
    match distribs with
    | [] => none
    | h :: t =>
        let pick := ops.pickIdx rng (h :: t).length
        ((h :: t).get ⟨pick.1 % (t.length + 1), Nat.mod_lt _ (Nat.succ_pos _)⟩).sample
          pick.2 point_from normal
  pdf := fun point_from normal dir =>
    (distribs.map fun distr => distr.pdf point_from normal dir).sum /
      distribs.length

/-- The black radiance constant `BLACK`. -/
def BLACK : V3 := ⟨0, 0, 0⟩

/-- ACES filmic tone-mapping curve from `rendering.rs`. -/
def aces_tonemap (x : ℝ) : ℝ :=
  let A : ℝ := 2.51
  let B : ℝ := 0.03
  let C : ℝ := 2.43
  let D : ℝ := 0.59
  let E : ℝ := 0.14
  min (max (x * (A * x + B) / (x * (C * x + D) + E)) 0) 1.1

/-- Rounding half away from zero (`f64::round`). -/
def rustRound (x : ℝ) : ℤ := if 0 ≤ x then ⌊x + 1 / 2⌋ else ⌈x - 1 / 2⌉

/-- Saturating cast of a rounded value to a byte (`as u8`). -/
def u8cast (z : ℤ) : ℤ := max 0 (min 255 z)

/-- One display channel: tone map, gamma correct with exponent `1/2.2`,
scale to 255, round, cast. -/
def channel_value (x : ℝ) : ℤ :=
  u8cast (rustRound (aces_tonemap x ^ ((1 : ℝ) / 2.2) * 255))

/-- Pixel encoding `proportion_to_value`: three 8-bit channel values. -/
def proportion_to_value (color : V3) : List ℤ :=
  [channel_value color.x, channel_value color.y, channel_value color.z]

/-- The recursive radiance estimator `get_ray_color`.  Returns the radiance
together with the advanced RNG state; `none` models a panic (or diverging
sampler) inside a delegated `sample` call. -/
def get_ray_color {R : Type} (ops : RngOps R) (scene : Scene) (rng : R)
    (global_distr : DistrImpl R) (ray : Ray) (depth : ℕ) : Option (V3 × R) :=
  if h : scene.ray_depth ≤ depth then some (BLACK, rng)
  else
    match intersect_scene ray scene none with
    | none => some (scene.background_color, rng)
    | some (intersection, primitive) =>
        let intersection_point :=
          ray.point + V3.scale intersection.ts.headI ray.direction
        match primitive.material with
        | .DIFFUSE =>
            match global_distr.sample rng intersection_point
                intersection.normals.headI with
            | none => none
            | some (w, rng1) =>
                let pdf := global_distr.pdf intersection_point
                  intersection.normals.headI w
                if pdf ≤ 0 ∨ w.dot intersection.normals.headI ≤ 0 then
                  some (primitive.emission, rng1)
                else
                  (get_ray_color ops scene rng1 global_distr
                      (build_shifted_ray intersection_point w) (depth + 1)).map
                    fun cr =>
                      (primitive.emission +
                        V3.divS
                          (V3.scale (w.dot intersection.normals.headI)
                            ((V3.divS primitive.color Real.pi).component_mul cr.1))
                          pdf,
                        cr.2)
        | .METALLIC =>
            let reflected_direction := ray.direction -
              V3.scale (2 * intersection.normals.headI.dot ray.direction)
                intersection.normals.headI
            (get_ray_color ops scene rng global_distr
                (build_shifted_ray intersection_point reflected_direction)
                (depth + 1)).map
              fun cr => (primitive.color.component_mul cr.1, cr.2)
        | .DIELECTRIC ior =>
            let nu12 : ℝ × ℝ := if intersection.outside then (1, ior) else (ior, 1)
            let normalized_ray_direction := ray.direction.normalize
            let cos_tetta_1 :=
              -(intersection.normals.headI.dot normalized_ray_direction)
            let sin_tetta_2 := nu12.1 / nu12.2 * Real.sqrt (1 - cos_tetta_1 ^ 2)
            let reflected_dir := normalized_ray_direction +
              V3.scale (2 * cos_tetta_1) intersection.normals.headI
            let r_0 := ((nu12.1 - nu12.2) / (nu12.1 + nu12.2)) ^ 2
            let reflected_coef := r_0 + (1 - r_0) * (1 - cos_tetta_1) ^ 5
            match get_ray_color ops scene rng global_distr
                (build_shifted_ray intersection_point reflected_dir)
                (depth + 1) with
            | none => none
            | some (reflected_color, rng1) =>
                if sin_tetta_2 ≤ 1 then
                  let pu := ops.genF rng1
                  if reflected_coef < pu.1 then
                    let cos_tetta_2 := Real.sqrt (1 - sin_tetta_2 ^ 2)
                    let refracted_dir :=
                      V3.scale (nu12.1 / nu12.2) normalized_ray_direction +
                        V3.scale (nu12.1 / nu12.2 * cos_tetta_1 - cos_tetta_2)
                          intersection.normals.headI
                    (get_ray_color ops scene pu.2 global_distr
                        (build_shifted_ray intersection_point refracted_dir)
                        (depth + 1)).map
                      fun cr =>
                        (if intersection.outside then
                            cr.1.component_mul primitive.color
                          else cr.1, cr.2)
                  else some (reflected_color, pu.2)
                else some (reflected_color, rng1)
  termination_by scene.ray_depth - depth
  decreasing_by all_goals (simp_wf; omega)

/-- The scene-wide sampling mixture built at the top of `render_scene`: one
cosine-weighted member plus a mixture of one light-source member per
non-planar primitive. -/
def global_distr_of_scene {R : Type} (ops : RngOps R) (fuel : ℕ)
    (scene : Scene) : DistrImpl R :=
  MixDistr ops
    [CosineWeightedDistr ops fuel,
     MixDistr ops
       ((scene.primitives.filter fun primitive =>
           match primitive.shape with
           | .Plane _ => false
           | _ => true).map fun primitive => LightSourceDistr ops fuel primitive)]

/-- The camera ray through pixel `(row, column)` built in `render_scene`'s
loop body. -/
def pixel_ray (scene : Scene) (row column : ℕ) : Ray :=
  let x_local : ℝ := (column : ℝ) + 0.5
  let y_local : ℝ := (row : ℝ) + 0.5
  let x_global := (2 * x_local / (scene.width : ℝ) - 1) *
    Real.tan (scene.camera.fov_x / 2)
  let y_global := (2 * y_local / (scene.height : ℝ) - 1) *
    Real.tan (scene.camera.fov_y / 2) * (-1)
  ⟨scene.camera.position,
   V3.scale x_global scene.camera.right_axis +
     V3.scale y_global scene.camera.up_axis + scene.camera.forward_axis⟩

/-- Accumulation of `scene.samples` estimator draws for one pixel
(the `(0..samples).map(...).sum()` loop), threading the RNG. -/
def sum_pixel_samples {R : Type} (ops : RngOps R) (scene : Scene)
    (global_distr : DistrImpl R) (ray : Ray) (count : ℕ) (rng : R) :
    Option (V3 × R) :=
  (List.range count).foldl
    (fun acc _ => acc.bind fun sr =>
      (get_ray_color ops scene sr.2 global_distr ray 0).map fun cr =>
        (sr.1 + cr.1, cr.2))
    (some (0, rng))

/-- One pixel of `render_scene`: average the sample draws and encode. -/
def render_pixel {R : Type} (ops : RngOps R) (scene : Scene)
    (global_distr : DistrImpl R) (row column : ℕ) (rng : R) :
    Option (List ℤ × R) :=
  (sum_pixel_samples ops scene global_distr (pixel_ray scene row column)
      scene.samples rng).map fun sr =>
    (proportion_to_value (V3.divS sr.1 (scene.samples : ℝ)), sr.2)

/-- The row-major double pixel loop of `render_scene`, accumulating the flat
byte list. -/
def render_loop {R : Type} (ops : RngOps R) (scene : Scene)
    (global_distr : DistrImpl R) (rng : R) : Option (List ℤ × R) :=
  (List.range scene.height).foldl
    (fun accRow row =>
      (List.range scene.width).foldl
        (fun acc column => acc.bind fun br =>
          (render_pixel ops scene global_distr row column br.2).map fun pr =>
            (br.1 ++ pr.1, pr.2))
        accRow)
    (some ([], rng))

/-- Top-level renderer `render_scene`: builds the global mixture and runs the
pixel loop; `none` models an aborted render. -/
def render_scene {R : Type} (ops : RngOps R) (fuel : ℕ) (scene : Scene)
    (rng : R) : Option (List ℤ) :=
  (render_loop ops scene (global_distr_of_scene ops fuel scene) rng).map
    Prod.fst

/-- Trivial RNG operation pack over the unit state, used to instantiate
theorems at concrete inputs. -/
def unitRngOps : RngOps Unit where
  genRange := fun _ _ _ => (0, ())
  genBool := fun _ => (false, ())
  genF := fun _ => (0, ())
  pickIdx := fun _ _ => (0, ())

/-- A camera with all fields zero (the camera never influences the
properties under verification that use it). -/
def cameraZero : Camera := ⟨0, 0, 0, 0, 0, 0⟩

/-- A distribution with a constant density, used to witness C9 on a
two-member mixture with hand-computed densities. -/
def constPdfDistr (c : ℝ) : DistrImpl Unit where
  sample := fun rng _ _ => some (0, rng)
  pdf := fun _ _ _ => c

/-- Quadratic coefficient `a` of the ellipsoid intersection. -/
def ellipsoid_a (ray : Ray) (r : V3) : ℝ :=
  (ray.direction.component_div r).dot (ray.direction.component_div r)

/-- Quadratic coefficient `b` of the ellipsoid intersection. -/
def ellipsoid_b (ray : Ray) (r : V3) : ℝ :=
  2 * (ray.point.component_div r).dot (ray.direction.component_div r)

/-- Quadratic coefficient `c` of the ellipsoid intersection. -/
def ellipsoid_c (ray : Ray) (r : V3) : ℝ :=
  (ray.point.component_div r).dot (ray.point.component_div r) - 1

/-- Discriminant of the ellipsoid intersection quadratic. -/
def ellipsoid_discr (ray : Ray) (r : V3) : ℝ :=
  ellipsoid_b ray r * ellipsoid_b ray r - 4 * ellipsoid_a ray r * ellipsoid_c ray r

/-- The smaller quadratic root `t0` of the ellipsoid intersection. -/
def ellipsoid_root_lo (ray : Ray) (r : V3) : ℝ :=
  min ((-ellipsoid_b ray r - Real.sqrt (ellipsoid_discr ray r)) / (2 * ellipsoid_a ray r))
    ((-ellipsoid_b ray r + Real.sqrt (ellipsoid_discr ray r)) / (2 * ellipsoid_a ray r))

/-- The larger quadratic root `t1` of the ellipsoid intersection. -/
def ellipsoid_root_hi (ray : Ray) (r : V3) : ℝ :=
  max ((-ellipsoid_b ray r - Real.sqrt (ellipsoid_discr ray r)) / (2 * ellipsoid_a ray r))
    ((-ellipsoid_b ray r + Real.sqrt (ellipsoid_discr ray r)) / (2 * ellipsoid_a ray r))


/-- Nondegeneracy of a ray–shape query: the configurations in which no
`f64` division by zero feeds the arithmetic the invariants depend on.  The
spec classes the excluded inputs (degenerate shape parameters, zero
directions) as malformed geometry. -/
def nondegenerate (ray : Ray) : Shape → Prop
  | .Plane _ => True
  | .Ellipsoid r => ray.direction.component_div r ≠ 0
  | .Box _ => ray.direction ≠ 0

/-- Density evaluation as claim C2 words it, for comparison with the source
definition `LightSourceDistr_pdf`: the ray from `origin` toward `direction`
is intersected with *the primitive* (i.e. in the primitive's world placement,
via `intersect_primitive`), and each root contributes the local area density
times `|origin to hit| squared / |normal_hit . direction|`. -/
def LightSourceDistr_pdf_claim (primitive : Primitive)
    (point_from _normal_from direction : V3) : ℝ :=
  match intersect_primitive ⟨point_from, direction⟩ primitive with
  | none => 0
  | some intersection =>
      ((intersection.ts.zip intersection.normals).map fun tn =>
        let intersection_point := point_from + V3.scale tn.1 direction
        let local_point := primitive.rotation.conjugate.transform_vector
          (intersection_point - primitive.position)
        let local_pdf := light_local_pdf primitive.shape local_point
        let vector_on_sample := intersection_point - point_from
        local_pdf * (vector_on_sample.norm_squared / |tn.2.dot direction|)).sum

/-! ## Lemmas and theorems -/

@[simp] theorem V3.add_x (a b : V3) : (a + b).x = a.x + b.x := rfl
@[simp] theorem V3.add_y (a b : V3) : (a + b).y = a.y + b.y := rfl
@[simp] theorem V3.add_z (a b : V3) : (a + b).z = a.z + b.z := rfl
@[simp] theorem V3.sub_x (a b : V3) : (a - b).x = a.x - b.x := rfl
@[simp] theorem V3.sub_y (a b : V3) : (a - b).y = a.y - b.y := rfl
@[simp] theorem V3.sub_z (a b : V3) : (a - b).z = a.z - b.z := rfl
@[simp] theorem V3.neg_x (a : V3) : (-a).x = -a.x := rfl
@[simp] theorem V3.neg_y (a : V3) : (-a).y = -a.y := rfl
@[simp] theorem V3.neg_z (a : V3) : (-a).z = -a.z := rfl
@[simp] theorem V3.zero_x : (0 : V3).x = 0 := rfl
@[simp] theorem V3.zero_y : (0 : V3).y = 0 := rfl
@[simp] theorem V3.zero_z : (0 : V3).z = 0 := rfl


@[simp] theorem V3.mk_add_mk (a b c d e f : ℝ) :
    (⟨a, b, c⟩ + ⟨d, e, f⟩ : V3) = ⟨a + d, b + e, c + f⟩ := rfl
@[simp] theorem V3.mk_sub_mk (a b c d e f : ℝ) :
    (⟨a, b, c⟩ - ⟨d, e, f⟩ : V3) = ⟨a - d, b - e, c - f⟩ := rfl
@[simp] theorem V3.neg_mk (a b c : ℝ) : (-(⟨a, b, c⟩ : V3)) = ⟨-a, -b, -c⟩ := rfl

@[simp] theorem V3.scale_x (k : ℝ) (v : V3) : (V3.scale k v).x = k * v.x := rfl
@[simp] theorem V3.scale_y (k : ℝ) (v : V3) : (V3.scale k v).y = k * v.y := rfl
@[simp] theorem V3.scale_z (k : ℝ) (v : V3) : (V3.scale k v).z = k * v.z := rfl

/-- Square roots of the small perfect squares used in concrete witnesses. -/
theorem sqrt_one_eq : Real.sqrt 1 = 1 := Real.sqrt_one

theorem sqrt_four_eq : Real.sqrt 4 = 2 := by
  rw [show (4 : ℝ) = 2 ^ 2 by norm_num, Real.sqrt_sq (by norm_num : (0 : ℝ) ≤ 2)]

theorem sqrt_sixteen_eq : Real.sqrt 16 = 4 := by
  rw [show (16 : ℝ) = 4 ^ 2 by norm_num, Real.sqrt_sq (by norm_num : (0 : ℝ) ≤ 4)]


/-- Claim C4: for every scene, RNG state, distribution, ray and depth `d`
with `d ≥ scene.ray_depth`, the recursive radiance estimator returns exactly
zero radiance `(0,0,0)` with the RNG state untouched, for every scene
(hence without intersecting its geometry). -/
theorem get_ray_color_depth_terminal {R : Type} (ops : RngOps R)
    (scene : Scene) (rng : R) (distr : DistrImpl R) (ray : Ray) (depth : ℕ)
    (h : scene.ray_depth ≤ depth) :
    get_ray_color ops scene rng distr ray depth = some (BLACK, rng) := by
  rw [get_ray_color]
  rw [dif_pos h]

/-- Witness for C4 at a concrete scene with `ray_depth = 0` and depth `0`. -/
theorem get_ray_color_depth_terminal_witness :
    get_ray_color unitRngOps ⟨1, 1, 0, cameraZero, [], 0, 0, [], 1⟩ ()
      (MixDistr unitRngOps []) ⟨0, 0⟩ 0 = some (BLACK, ()) :=
  get_ray_color_depth_terminal unitRngOps _ () _ _ 0 (Nat.le_refl 0)

/-- Claim C9: the mixture's density at any arguments is the arithmetic mean
of the member densities. -/
theorem MixDistr_pdf_mean {R : Type} (ops : RngOps R)
    (distribs : List (DistrImpl R)) (point_from normal dir : V3)
    (h : distribs ≠ []) :
    (MixDistr ops distribs).pdf point_from normal dir =
      (∑ i : Fin distribs.length, (distribs[i.1]).pdf point_from normal dir) /
        distribs.length := by
  rw [Fin.sum_univ_get' distribs fun distr => distr.pdf point_from normal dir]
  rfl

/-- Witness for C9: a two-member mixture of densities `3` and `5` has
density `4`. -/
theorem MixDistr_pdf_mean_witness :
    (MixDistr unitRngOps [constPdfDistr 3, constPdfDistr 5]).pdf 0 0 0 = 4 := by
  have h := MixDistr_pdf_mean unitRngOps [constPdfDistr 3, constPdfDistr 5] 0 0 0
    (by simp)
  rw [h]
  simp [Fin.sum_univ_succ, constPdfDistr]
  norm_num

/-- Claim C5: the ellipsoid arm of `intersect_shape` returns no hit when the
discriminant is negative; both roots in ascending order with `outside = true`
when the smaller root `t0` is non-negative; the single root `t1` with
`outside = false` when only the larger root is non-negative; and no hit when
both roots are negative. -/
theorem intersect_shape_ellipsoid_root_cases (ray : Ray) (r : V3) :
    (ellipsoid_discr ray r < 0 → intersect_shape ray (.Ellipsoid r) = none) ∧
    (0 ≤ ellipsoid_discr ray r →
      (0 ≤ ellipsoid_root_lo ray r →
        ellipsoid_root_lo ray r ≤ ellipsoid_root_hi ray r ∧
        (intersect_shape ray (.Ellipsoid r)).map (fun i => (i.ts, i.outside)) =
          some ([ellipsoid_root_lo ray r, ellipsoid_root_hi ray r], true)) ∧
      (ellipsoid_root_lo ray r < 0 → 0 ≤ ellipsoid_root_hi ray r →
        (intersect_shape ray (.Ellipsoid r)).map (fun i => (i.ts, i.outside)) =
          some ([ellipsoid_root_hi ray r], false)) ∧
      (ellipsoid_root_hi ray r < 0 → intersect_shape ray (.Ellipsoid r) = none)) := by
  have hunf : intersect_shape ray (.Ellipsoid r) =
      ((if ellipsoid_discr ray r < 0 then none
        else some (ellipsoid_root_lo ray r, ellipsoid_root_hi ray r)).bind
          (fun p : ℝ × ℝ =>
            if 0 ≤ p.1 then some ([p.1, p.2], true)
            else if 0 ≤ p.2 then some ([p.2], false)
            else none)).map fun tso =>
        ⟨tso.1,
          tso.1.map fun t =>
            let p := ray.point + V3.scale t ray.direction
            let n := ((p.component_div r).component_div r).normalize
            if tso.2 then n else -n,
          tso.2⟩ := rfl
  refine ⟨fun hneg => ?_, fun hpos => ⟨fun hlo => ⟨min_le_max, ?_⟩,
    fun hlo hhi => ?_, fun hhi => ?_⟩⟩
  · rw [hunf, if_pos hneg]
    rfl
  · rw [hunf, if_neg (not_lt.mpr hpos)]
    simp [hlo]
  · rw [hunf, if_neg (not_lt.mpr hpos)]
    simp [not_le.mpr hlo, hhi]
  · have hlo' : ellipsoid_root_lo ray r < 0 :=
      lt_of_le_of_lt min_le_max hhi
    rw [hunf, if_neg (not_lt.mpr hpos)]
    simp [not_le.mpr hlo', not_le.mpr hhi]

/-- Witness for C5: a unit sphere hit from `(-5,0,0)` toward `(1,0,0)` gives
both roots `4` and `6` in ascending order with `outside = true`. -/
theorem intersect_shape_ellipsoid_root_cases_witness :
    (intersect_shape ⟨⟨-5, 0, 0⟩, ⟨1, 0, 0⟩⟩ (.Ellipsoid ⟨1, 1, 1⟩)).map
      (fun i => (i.ts, i.outside)) = some ([4, 6], true) := by
  have hd : ellipsoid_discr ⟨⟨-5, 0, 0⟩, ⟨1, 0, 0⟩⟩ ⟨1, 1, 1⟩ = 4 := by
    norm_num [ellipsoid_discr, ellipsoid_a, ellipsoid_b, ellipsoid_c,
      V3.component_div, V3.dot]
  have hb : ellipsoid_b ⟨⟨-5, 0, 0⟩, ⟨1, 0, 0⟩⟩ ⟨1, 1, 1⟩ = -10 := by
    norm_num [ellipsoid_b, V3.component_div, V3.dot]
  have ha : ellipsoid_a ⟨⟨-5, 0, 0⟩, ⟨1, 0, 0⟩⟩ ⟨1, 1, 1⟩ = 1 := by
    norm_num [ellipsoid_a, V3.component_div, V3.dot]
  have hlo : ellipsoid_root_lo ⟨⟨-5, 0, 0⟩, ⟨1, 0, 0⟩⟩ ⟨1, 1, 1⟩ = 4 := by
    rw [ellipsoid_root_lo, hd, hb, ha, sqrt_four_eq]
    norm_num
  have hhi : ellipsoid_root_hi ⟨⟨-5, 0, 0⟩, ⟨1, 0, 0⟩⟩ ⟨1, 1, 1⟩ = 6 := by
    rw [ellipsoid_root_hi, hd, hb, ha, sqrt_four_eq]
    norm_num
  have h := ((intersect_shape_ellipsoid_root_cases ⟨⟨-5, 0, 0⟩, ⟨1, 0, 0⟩⟩
      ⟨1, 1, 1⟩).2 (by rw [hd]; norm_num)).1 (by rw [hlo]; norm_num)
  rw [hlo, hhi] at h
  exact h.2

/-- The nearest-hit fold of `minByFirstRoot` always selects one of the
candidates. -/
theorem minByFirstRoot_foldl_mem (t : List (Intersection × Primitive))
    (h : Intersection × Primitive) :
    (t.foldl (fun acc xy => if acc.1.ts.headI < xy.1.ts.headI then acc else xy) h) ∈
      h :: t := by
  induction t generalizing h with
  | nil => simp
  | cons a t ih =>
      simp only [List.foldl_cons]
      by_cases hc : h.1.ts.headI < a.1.ts.headI
      · rw [if_pos hc]
        rcases List.mem_cons.mp (ih h) with h1 | h1
        · simp [h1]
        · simp [h1]
      · rw [if_neg hc]
        rcases List.mem_cons.mp (ih a) with h1 | h1
        · simp [h1]
        · simp [h1]

/-- The selected nearest hit is a member of the candidate list. -/
theorem minByFirstRoot_mem (l : List (Intersection × Primitive))
    (x : Intersection × Primitive) (h : minByFirstRoot l = some x) : x ∈ l := by
  cases l with
  | nil => simp [minByFirstRoot] at h
  | cons a t =>
      simp only [minByFirstRoot, Option.some.injEq] at h
      rw [← h]
      exact minByFirstRoot_foldl_mem t a

/-- Amended claim C1: every hit returned by `intersect_scene` is the
local-frame intersection computed by `intersect_primitive` for the selected
primitive with the same roots and outside flag, and with its normals — which
`intersect_primitive` leaves in the local frame — rotated into world space by
the primitive's rotation quaternion. -/
theorem intersect_scene_rotates_local_normals (ray : Ray) (scene : Scene)
    (cap : Option ℝ) (inter : Intersection) (prim : Primitive)
    (h : intersect_scene ray scene cap = some (inter, prim)) :
    ∃ li, intersect_primitive ray prim = some li ∧
      inter.ts = li.ts ∧ inter.outside = li.outside ∧
      inter.normals = li.normals.map prim.rotation.transform_vector := by
  unfold intersect_scene at h
  cases hmin : minByFirstRoot (scene.primitives.filterMap (scene_candidate ray)) with
  | none => rw [hmin] at h; simp at h
  | some ip =>
      rw [hmin] at h
      have hip : ip = (inter, prim) := by
        cases cap with
        | none => simpa using h
        | some val =>
            dsimp only at h
            by_cases hc : val < ip.1.ts.headI * ray.direction.norm
            · rw [if_pos hc] at h
              exact absurd h (by simp)
            · rw [if_neg hc] at h
              simpa using h
      rw [hip] at hmin
      have hmem := minByFirstRoot_mem _ _ hmin
      obtain ⟨p0, hp0mem, hp0⟩ := List.mem_filterMap.mp hmem
      unfold scene_candidate at hp0
      cases hsh : intersect_shape (to_local_ray ray p0) p0.shape with
      | none => rw [hsh] at hp0; simp at hp0
      | some li =>
          rw [hsh] at hp0
          simp only [Option.map_some', Option.some.injEq, Prod.mk.injEq] at hp0
          obtain ⟨hint, hprim⟩ := hp0
          subst hprim
          refine ⟨li, ?_, ?_, ?_, ?_⟩
          · rw [intersect_primitive, hsh]
          · rw [← hint]
          · rw [← hint]
          · rw [← hint]

/-- Counterexample to C1 as stated: for the plane primitive rotated 180°
about the z axis (quaternion `(w,x,y,z) = (0,0,0,1)`) and the ray from
`(-5,0,0)` toward `(1,0,0)`, `intersect_primitive` returns the local-frame
normal `(1,0,0)` unrotated, while the world-space (rotated) normal is
`(-1,0,0)`. -/
theorem intersect_primitive_normals_not_world_cex :
    ¬ ((intersect_primitive ⟨⟨-5, 0, 0⟩, ⟨1, 0, 0⟩⟩
          ⟨.Plane ⟨1, 0, 0⟩, 0, 0, ⟨0, 0, 0, 1⟩, .DIFFUSE, 0⟩).map
            Intersection.normals =
        (intersect_shape
            (to_local_ray ⟨⟨-5, 0, 0⟩, ⟨1, 0, 0⟩⟩
              ⟨.Plane ⟨1, 0, 0⟩, 0, 0, ⟨0, 0, 0, 1⟩, .DIFFUSE, 0⟩)
            (.Plane ⟨1, 0, 0⟩)).map
          fun i => i.normals.map (Quat.transform_vector ⟨0, 0, 0, 1⟩)) := by
  norm_num [intersect_primitive, to_local_ray, intersect_shape, Quat.conjugate,
    Quat.transform_vector, Quat.vec, V3.cross, V3.scale, V3.dot, V3.normalize,
    V3.divS, V3.norm, V3.norm_squared]

/-- Witness for the amended C1 on a one-primitive scene with a nontrivial
rotation: the world-space normals returned by `intersect_scene` are the
rotated versions of `intersect_primitive`'s local-frame normals. -/
theorem intersect_scene_rotates_local_normals_witness :
    (intersect_scene ⟨⟨-5, 0, 0⟩, ⟨1, 0, 0⟩⟩
        ⟨1, 1, 0, cameraZero,
          [⟨.Plane ⟨1, 0, 0⟩, 0, 0, ⟨0, 0, 0, 1⟩, .DIFFUSE, 0⟩], 1, 0, [], 1⟩
        none).map (fun ip => ip.1.normals) =
      (intersect_primitive ⟨⟨-5, 0, 0⟩, ⟨1, 0, 0⟩⟩
          ⟨.Plane ⟨1, 0, 0⟩, 0, 0, ⟨0, 0, 0, 1⟩, .DIFFUSE, 0⟩).map
        fun li => li.normals.map (Quat.transform_vector ⟨0, 0, 0, 1⟩) := by
  have hs : intersect_scene ⟨⟨-5, 0, 0⟩, ⟨1, 0, 0⟩⟩
      ⟨1, 1, 0, cameraZero,
        [⟨.Plane ⟨1, 0, 0⟩, 0, 0, ⟨0, 0, 0, 1⟩, .DIFFUSE, 0⟩], 1, 0, [], 1⟩
      none =
      some (⟨[5], [⟨-1, 0, 0⟩], true⟩,
        ⟨.Plane ⟨1, 0, 0⟩, 0, 0, ⟨0, 0, 0, 1⟩, .DIFFUSE, 0⟩) := by
    have hcand : scene_candidate ⟨⟨-5, 0, 0⟩, ⟨1, 0, 0⟩⟩
        ⟨.Plane ⟨1, 0, 0⟩, 0, 0, ⟨0, 0, 0, 1⟩, .DIFFUSE, 0⟩ =
        some (⟨[5], [⟨-1, 0, 0⟩], true⟩,
          ⟨.Plane ⟨1, 0, 0⟩, 0, 0, ⟨0, 0, 0, 1⟩, .DIFFUSE, 0⟩) := by
      norm_num [scene_candidate, to_local_ray, intersect_shape, Quat.conjugate,
        Quat.transform_vector, Quat.vec, V3.cross, V3.scale, V3.dot, V3.normalize,
        V3.divS, V3.norm, V3.norm_squared]
    unfold intersect_scene
    simp only [List.filterMap_cons, List.filterMap_nil, hcand, minByFirstRoot,
      List.foldl_nil]
  obtain ⟨li, hli, hts, hout, hn⟩ :=
    intersect_scene_rotates_local_normals _ _ _ _ _ hs
  rw [hs, hli]
  simp only [Option.map_some']
  exact congrArg some hn

theorem V3.eq_zero_iff (v : V3) : v = 0 ↔ v.x = 0 ∧ v.y = 0 ∧ v.z = 0 := by
  cases v with
  | mk a b c =>
      constructor
      · intro h
        have h' : (⟨a, b, c⟩ : V3) = ⟨0, 0, 0⟩ := h
        injection h' with h1 h2 h3
        exact ⟨h1, h2, h3⟩
      · rintro ⟨h1, h2, h3⟩
        subst h1
        subst h2
        subst h3
        rfl

theorem V3.norm_squared_nonneg (v : V3) : 0 ≤ v.norm_squared := by
  unfold V3.norm_squared V3.dot
  nlinarith [mul_self_nonneg v.x, mul_self_nonneg v.y, mul_self_nonneg v.z]

theorem V3.norm_squared_eq_zero_iff (v : V3) : v.norm_squared = 0 ↔ v = 0 := by
  unfold V3.norm_squared V3.dot
  rw [V3.eq_zero_iff]
  constructor
  · intro h
    refine ⟨?_, ?_, ?_⟩ <;> nlinarith [sq_nonneg v.x, sq_nonneg v.y, sq_nonneg v.z]
  · rintro ⟨h1, h2, h3⟩
    rw [h1, h2, h3]
    ring

/-- A vector with nonzero squared norm normalises to a unit vector. -/
theorem V3.normalize_unit (v : V3) (hv : v.norm_squared ≠ 0) :
    v.normalize.dot v.normalize = 1 := by
  have hpos : 0 < v.norm_squared :=
    lt_of_le_of_ne (V3.norm_squared_nonneg v) (Ne.symm hv)
  have hsq : v.norm * v.norm = v.norm_squared :=
    Real.mul_self_sqrt (V3.norm_squared_nonneg v)
  have hne : v.norm ≠ 0 := by
    intro h0
    rw [h0] at hsq
    simp at hsq
    exact hv hsq.symm
  unfold V3.normalize V3.divS V3.dot
  unfold V3.norm_squared V3.dot at hsq
  field_simp
  linarith [hsq]

/-- Negation preserves the squared norm of the dot with itself. -/
theorem V3.neg_dot_neg (v : V3) : (-v).dot (-v) = v.dot v := by
  unfold V3.dot
  simp only [V3.neg_x, V3.neg_y, V3.neg_z]
  ring

/-- The axis-snapping normaliser always produces a unit vector. -/
theorem normalize_axis_unit (v : V3) :
    (normalize_axis v).dot (normalize_axis v) = 1 := by
  unfold normalize_axis rustSignum
  split_ifs <;> simp [V3.dot] <;> norm_num

/-- Both values returned by `solve_quadratic_equation` are exact roots of
the quadratic (when the leading coefficient is nonzero). -/
theorem solve_quadratic_equation_roots (a b c : ℝ) (ha : a ≠ 0) (p : ℝ × ℝ)
    (h : solve_quadratic_equation a b c = some p) :
    (a * p.1 * p.1 + b * p.1 + c = 0 ∧ a * p.2 * p.2 + b * p.2 + c = 0) ∧
      p.1 ≤ p.2 := by
  unfold solve_quadratic_equation at h
  by_cases hd : b * b - 4 * a * c < 0
  · rw [if_pos hd] at h
    exact absurd h (by simp)
  · rw [if_neg hd] at h
    simp only [Option.some.injEq] at h
    have hd' : 0 ≤ b * b - 4 * a * c := not_lt.mp hd
    have hs : Real.sqrt (b * b - 4 * a * c) * Real.sqrt (b * b - 4 * a * c) =
        b * b - 4 * a * c := Real.mul_self_sqrt hd'
    have hroot : ∀ e : ℝ, e * e = 1 →
        a * ((-b + e * Real.sqrt (b * b - 4 * a * c)) / (2 * a)) *
            ((-b + e * Real.sqrt (b * b - 4 * a * c)) / (2 * a)) +
          b * ((-b + e * Real.sqrt (b * b - 4 * a * c)) / (2 * a)) + c = 0 := by
      intro e he2
      have key : (-b + e * Real.sqrt (b * b - 4 * a * c)) *
            (-b + e * Real.sqrt (b * b - 4 * a * c)) +
          2 * b * (-b + e * Real.sqrt (b * b - 4 * a * c)) + 4 * a * c = 0 := by
        linear_combination
          (Real.sqrt (b * b - 4 * a * c) * Real.sqrt (b * b - 4 * a * c)) * he2 + hs
      have hrw : a * ((-b + e * Real.sqrt (b * b - 4 * a * c)) / (2 * a)) *
            ((-b + e * Real.sqrt (b * b - 4 * a * c)) / (2 * a)) +
          b * ((-b + e * Real.sqrt (b * b - 4 * a * c)) / (2 * a)) + c =
          ((-b + e * Real.sqrt (b * b - 4 * a * c)) *
              (-b + e * Real.sqrt (b * b - 4 * a * c)) +
            2 * b * (-b + e * Real.sqrt (b * b - 4 * a * c)) + 4 * a * c) /
            (4 * a) := by
        field_simp
        ring
      rw [hrw, key, zero_div]
    have h1 := hroot (-1) (by norm_num)
    have h2 := hroot 1 (by norm_num)
    rw [show -b + (-1) * Real.sqrt (b * b - 4 * a * c) =
      -b - Real.sqrt (b * b - 4 * a * c) by ring] at h1
    rw [show -b + 1 * Real.sqrt (b * b - 4 * a * c) =
      -b + Real.sqrt (b * b - 4 * a * c) by ring] at h2
    rw [← h]
    refine ⟨⟨?_, ?_⟩, min_le_max⟩
    · rcases min_choice ((-b - Real.sqrt (b * b - 4 * a * c)) / (2 * a))
        ((-b + Real.sqrt (b * b - 4 * a * c)) / (2 * a)) with hmin | hmin <;>
        simp only [hmin] <;> assumption
    · rcases max_choice ((-b - Real.sqrt (b * b - 4 * a * c)) / (2 * a))
        ((-b + Real.sqrt (b * b - 4 * a * c)) / (2 * a)) with hmax | hmax <;>
        simp only [hmax] <;> assumption

/-- Componentwise expansion of the ellipsoid point along the ray. -/
theorem ellipsoid_point_norm_squared (ray : Ray) (r : V3) (t : ℝ) :
    ((ray.point + V3.scale t ray.direction).component_div r).norm_squared =
      (ray.point.component_div r).norm_squared +
        2 * t * ((ray.point.component_div r).dot (ray.direction.component_div r)) +
        t * t * ((ray.direction.component_div r).dot (ray.direction.component_div r)) := by
  unfold V3.norm_squared V3.component_div V3.dot
  simp only [V3.add_x, V3.add_y, V3.add_z, V3.scale_x, V3.scale_y, V3.scale_z,
    add_div, mul_div_assoc]
  ring

/-- Dividing a nonzero componentwise quotient by the same denominators again
keeps it nonzero (a zero denominator already forces the first quotient's
component to zero). -/
theorem component_div_div_ne_zero (w r : V3) (h : w.component_div r ≠ 0) :
    (w.component_div r).component_div r ≠ 0 := by
  intro hz
  apply h
  rw [V3.eq_zero_iff] at hz ⊢
  unfold V3.component_div at hz ⊢
  simp only at hz ⊢
  refine ⟨?_, ?_, ?_⟩
  · by_cases hr : r.x = 0
    · rw [hr, div_zero]
    · exact (div_eq_zero_iff.mp hz.1).resolve_right hr
  · by_cases hr : r.y = 0
    · rw [hr, div_zero]
    · exact (div_eq_zero_iff.mp hz.2.1).resolve_right hr
  · by_cases hr : r.z = 0
    · rw [hr, div_zero]
    · exact (div_eq_zero_iff.mp hz.2.2).resolve_right hr

theorem rustDiv_ne_zero_den (x d : ℝ) (hd : d ≠ 0) : rustDiv x d = .fin (x / d) := by
  unfold rustDiv
  rw [if_neg hd]

theorem rustMin_fin_fin (a b : ℝ) : ∃ v, rustMin (.fin a) (.fin b) = .fin v := by
  unfold rustMin
  dsimp only
  split <;> exact ⟨_, rfl⟩

theorem rustMax_fin_fin (a b : ℝ) : ∃ v, rustMax (.fin a) (.fin b) = .fin v := by
  unfold rustMax
  dsimp only
  split <;> exact ⟨_, rfl⟩

theorem rustMax_finpinf_left (a b : F64) (h : (∃ x, a = .fin x) ∨ a = .pinf) :
    (∃ y, rustMax a b = .fin y) ∨ rustMax a b = .pinf := by
  rcases h with ⟨x, rfl⟩ | rfl <;> cases b <;>
    simp [rustMax, F64.ltb] <;> split <;> simp

theorem rustMax_finpinf_right (a b : F64) (h : (∃ x, b = .fin x) ∨ b = .pinf) :
    (∃ y, rustMax a b = .fin y) ∨ rustMax a b = .pinf := by
  rcases h with ⟨x, rfl⟩ | rfl <;> cases a <;>
    simp [rustMax, F64.ltb] <;> split <;> simp

theorem rustMin_finninf_left (a b : F64) (h : (∃ x, a = .fin x) ∨ a = .ninf) :
    (∃ y, rustMin a b = .fin y) ∨ rustMin a b = .ninf := by
  rcases h with ⟨x, rfl⟩ | rfl <;> cases b <;>
    simp [rustMin, F64.ltb] <;> split <;> simp

theorem rustMin_finninf_right (a b : F64) (h : (∃ x, b = .fin x) ∨ b = .ninf) :
    (∃ y, rustMin a b = .fin y) ∨ rustMin a b = .ninf := by
  rcases h with ⟨x, rfl⟩ | rfl <;> cases a <;>
    simp [rustMin, F64.ltb] <;> split <;> simp

/-- Claim C10: every intersection returned by `intersect_shape` (for
nondegenerate inputs) has a non-empty root list, as many normals as roots,
roots in ascending order, and unit normals (stated as `n ⬝ n = 1`), so the
unconditional accesses to `ts[0]`, `normals[0]` and the zip of `ts` with
`normals` downstream stay in bounds. -/
theorem intersect_shape_invariants (ray : Ray) (shape : Shape)
    (hnd : nondegenerate ray shape) (inter : Intersection)
    (h : intersect_shape ray shape = some inter) :
    inter.ts ≠ [] ∧ inter.normals.length = inter.ts.length ∧
      List.Chain' (· ≤ ·) inter.ts ∧ ∀ n ∈ inter.normals, n.dot n = 1 := by
  cases shape with
  | Plane normal =>
      simp only [intersect_shape] at h
      by_cases h1 : |ray.direction.dot normal| ≤ 0.00001
      · rw [if_pos h1] at h
        exact absurd h (by simp)
      · rw [if_neg h1] at h
        by_cases h2 : -(ray.point.dot normal) / ray.direction.dot normal < 0
        · rw [if_pos h2] at h
          exact absurd h (by simp)
        · rw [if_neg h2] at h
          injection h with h'
          subst h'
          have hn0 : normal ≠ 0 := by
            intro hz
            subst hz
            apply h1
            simp [V3.dot]
            norm_num
          have hns : normal.norm_squared ≠ 0 :=
            fun hzz => hn0 ((V3.norm_squared_eq_zero_iff normal).mp hzz)
          refine ⟨by simp, by simp, by simp, ?_⟩
          intro n hn
          simp only [List.mem_singleton] at hn
          subst hn
          split_ifs with hdir
          · exact V3.normalize_unit normal hns
          · apply V3.normalize_unit
            rw [show (-normal).norm_squared = normal.norm_squared from
              V3.neg_dot_neg normal]
            exact hns
  | Ellipsoid r =>
      have ha : (ray.direction.component_div r).dot (ray.direction.component_div r) ≠ 0 := by
        intro hz
        exact hnd ((V3.norm_squared_eq_zero_iff _).mp hz)
      simp only [intersect_shape] at h
      rw [Option.map_eq_some'] at h
      obtain ⟨tso, hbind, hg⟩ := h
      rw [Option.bind_eq_some] at hbind
      obtain ⟨p, hsolve, hf⟩ := hbind
      have hroots := solve_quadratic_equation_roots _ _ _ ha p hsolve
      have hunit : ∀ t : ℝ,
          (ray.direction.component_div r).dot (ray.direction.component_div r) * t * t +
            2 * (ray.point.component_div r).dot (ray.direction.component_div r) * t +
            ((ray.point.component_div r).dot (ray.point.component_div r) - 1) = 0 →
          ((((ray.point + V3.scale t ray.direction).component_div r).component_div
            r).normalize).dot
            ((((ray.point + V3.scale t ray.direction).component_div r).component_div
              r).normalize) = 1 := by
        intro t hroot
        have hone : ((ray.point + V3.scale t ray.direction).component_div r).norm_squared
            = 1 := by
          rw [ellipsoid_point_norm_squared]
          unfold V3.norm_squared
          linarith [hroot]
        have hq0 : (ray.point + V3.scale t ray.direction).component_div r ≠ 0 := by
          intro hz
          rw [← V3.norm_squared_eq_zero_iff] at hz
          rw [hone] at hz
          norm_num at hz
        have hv0 := component_div_div_ne_zero _ r hq0
        apply V3.normalize_unit
        intro hz
        exact hv0 ((V3.norm_squared_eq_zero_iff _).mp hz)
      by_cases hp1 : 0 ≤ p.1
      · rw [if_pos hp1] at hf
        injection hf with hf'
        subst hf'
        subst hg
        refine ⟨by simp, by simp, by simp [hroots.2], ?_⟩
        intro n hn
        simp only [List.map_cons, List.map_nil, List.mem_cons,
          List.not_mem_nil, or_false] at hn
        rcases hn with hn | hn <;> subst hn <;> simp only [if_true]
        · exact hunit p.1 (by linarith [hroots.1.1])
        · exact hunit p.2 (by linarith [hroots.1.2])
      · rw [if_neg hp1] at hf
        by_cases hp2 : 0 ≤ p.2
        · rw [if_pos hp2] at hf
          injection hf with hf'
          subst hf'
          subst hg
          refine ⟨by simp, by simp, by simp, ?_⟩
          intro n hn
          simp only [List.map_cons, List.map_nil, List.mem_cons,
            List.not_mem_nil, or_false] at hn
          rcases hn with hn
          subst hn
          simp only [Bool.false_eq_true, if_false]
          rw [V3.neg_dot_neg]
          exact hunit p.2 (by linarith [hroots.1.2])
        · rw [if_neg hp2] at hf
          exact absurd hf (by simp)
  | Box s =>
      have hd : ray.direction ≠ 0 := hnd
      simp only [intersect_shape] at h
      rw [Option.map_eq_some'] at h
      obtain ⟨tso, hbranch, hg⟩ := h
      have hcomp : ray.direction.x ≠ 0 ∨ ray.direction.y ≠ 0 ∨
          ray.direction.z ≠ 0 := by
        by_contra hall
        push_neg at hall
        exact hd ((V3.eq_zero_iff _).mpr ⟨hall.1, hall.2.1, hall.2.2⟩)
      -- the slab pair on a nonzero-direction axis is finite, so the overall
      -- interval ends are finite-or-infinite in the right direction
      have ht0 : (∃ x, rustMax
            (rustMin (rustDiv (s.x - ray.point.x) ray.direction.x)
              (rustDiv (-s.x - ray.point.x) ray.direction.x))
            (rustMax
              (rustMin (rustDiv (s.y - ray.point.y) ray.direction.y)
                (rustDiv (-s.y - ray.point.y) ray.direction.y))
              (rustMin (rustDiv (s.z - ray.point.z) ray.direction.z)
                (rustDiv (-s.z - ray.point.z) ray.direction.z))) = .fin x) ∨
          rustMax
            (rustMin (rustDiv (s.x - ray.point.x) ray.direction.x)
              (rustDiv (-s.x - ray.point.x) ray.direction.x))
            (rustMax
              (rustMin (rustDiv (s.y - ray.point.y) ray.direction.y)
                (rustDiv (-s.y - ray.point.y) ray.direction.y))
              (rustMin (rustDiv (s.z - ray.point.z) ray.direction.z)
                (rustDiv (-s.z - ray.point.z) ray.direction.z))) = .pinf := by
        rcases hcomp with hdx | hdy | hdz
        · apply rustMax_finpinf_left
          rw [rustDiv_ne_zero_den _ _ hdx, rustDiv_ne_zero_den _ _ hdx]
          exact Or.inl (rustMin_fin_fin _ _)
        · apply rustMax_finpinf_right
          apply rustMax_finpinf_left
          rw [rustDiv_ne_zero_den _ _ hdy, rustDiv_ne_zero_den _ _ hdy]
          exact Or.inl (rustMin_fin_fin _ _)
        · apply rustMax_finpinf_right
          apply rustMax_finpinf_right
          rw [rustDiv_ne_zero_den _ _ hdz, rustDiv_ne_zero_den _ _ hdz]
          exact Or.inl (rustMin_fin_fin _ _)
      have ht1 : (∃ x, rustMin
            (rustMax (rustDiv (s.x - ray.point.x) ray.direction.x)
              (rustDiv (-s.x - ray.point.x) ray.direction.x))
            (rustMin
              (rustMax (rustDiv (s.y - ray.point.y) ray.direction.y)
                (rustDiv (-s.y - ray.point.y) ray.direction.y))
              (rustMax (rustDiv (s.z - ray.point.z) ray.direction.z)
                (rustDiv (-s.z - ray.point.z) ray.direction.z))) = .fin x) ∨
          rustMin
            (rustMax (rustDiv (s.x - ray.point.x) ray.direction.x)
              (rustDiv (-s.x - ray.point.x) ray.direction.x))
            (rustMin
              (rustMax (rustDiv (s.y - ray.point.y) ray.direction.y)
                (rustDiv (-s.y - ray.point.y) ray.direction.y))
              (rustMax (rustDiv (s.z - ray.point.z) ray.direction.z)
                (rustDiv (-s.z - ray.point.z) ray.direction.z))) = .ninf := by
        rcases hcomp with hdx | hdy | hdz
        · apply rustMin_finninf_left
          rw [rustDiv_ne_zero_den _ _ hdx, rustDiv_ne_zero_den _ _ hdx]
          exact Or.inl (rustMax_fin_fin _ _)
        · apply rustMin_finninf_right
          apply rustMin_finninf_left
          rw [rustDiv_ne_zero_den _ _ hdy, rustDiv_ne_zero_den _ _ hdy]
          exact Or.inl (rustMax_fin_fin _ _)
        · apply rustMin_finninf_right
          apply rustMin_finninf_right
          rw [rustDiv_ne_zero_den _ _ hdz, rustDiv_ne_zero_den _ _ hdz]
          exact Or.inl (rustMax_fin_fin _ _)
      set t0 := rustMax
        (rustMin (rustDiv (s.x - ray.point.x) ray.direction.x)
          (rustDiv (-s.x - ray.point.x) ray.direction.x))
        (rustMax
          (rustMin (rustDiv (s.y - ray.point.y) ray.direction.y)
            (rustDiv (-s.y - ray.point.y) ray.direction.y))
          (rustMin (rustDiv (s.z - ray.point.z) ray.direction.z)
            (rustDiv (-s.z - ray.point.z) ray.direction.z))) with ht0def
      set t1 := rustMin
        (rustMax (rustDiv (s.x - ray.point.x) ray.direction.x)
          (rustDiv (-s.x - ray.point.x) ray.direction.x))
        (rustMin
          (rustMax (rustDiv (s.y - ray.point.y) ray.direction.y)
            (rustDiv (-s.y - ray.point.y) ray.direction.y))
          (rustMax (rustDiv (s.z - ray.point.z) ray.direction.z)
            (rustDiv (-s.z - ray.point.z) ray.direction.z))) with ht1def
      by_cases hguard : (F64.ltb t1 t0 || F64.ltb t1 (.fin 0)) = true
      · rw [if_pos hguard] at hbranch
        exact absurd hbranch (by simp)
      · rw [if_neg hguard] at hbranch
        rw [Bool.or_eq_true, not_or] at hguard
        obtain ⟨hg1, hg2⟩ := hguard
        obtain ⟨c, hc⟩ : ∃ c, t1 = .fin c := by
          rcases ht1 with hfin | hninf
          · exact hfin
          · rw [hninf] at hg2
            exact (hg2 (by simp [F64.ltb])).elim
        obtain ⟨a, hafin⟩ : ∃ a, t0 = .fin a := by
          rcases ht0 with hfin | hpinf
          · exact hfin
          · rw [hpinf, hc] at hg1
            exact (hg1 (by simp [F64.ltb])).elim
        rw [hc] at hg2
        have hc0 : 0 ≤ c := by
          simp only [F64.ltb, decide_eq_true_eq] at hg2
          exact not_lt.mp (by simpa using hg2)
        rw [hc, hafin] at hg1
        have hac : a ≤ c := by
          simp only [F64.ltb, decide_eq_true_eq] at hg1
          exact not_lt.mp (by simpa using hg1)
        rw [hc, hafin] at hbranch
        have hnormunit : ∀ (ts : List ℝ) (outside : Bool) (n : V3),
            n ∈ ts.map (fun t =>
              let p := ray.point + V3.scale t ray.direction
              if outside then normalize_axis (p.component_div s)
              else -(normalize_axis (p.component_div s))) → n.dot n = 1 := by
          intro ts outside n hn
          rw [List.mem_map] at hn
          obtain ⟨t, _, hmk⟩ := hn
          subst hmk
          dsimp only
          split_ifs
          · exact normalize_axis_unit _
          · rw [V3.neg_dot_neg]
            exact normalize_axis_unit _
        by_cases hout : F64.leb (.fin 0) (.fin a) = true
        · rw [if_pos hout] at hbranch
          injection hbranch with hb'
          subst hb'
          subst hg
          refine ⟨by simp, by simp, ?_, hnormunit _ _⟩
          simp only [F64.toReal, List.chain'_cons, List.chain'_singleton, and_true]
          exact hac
        · rw [if_neg hout] at hbranch
          injection hbranch with hb'
          subst hb'
          subst hg
          exact ⟨by simp, by simp, by simp, hnormunit _ _⟩

/-- Witness for C10 at the axis-aligned box example: ray from `(5,0,0)`
toward `(-1,0,0)` against the unit box. -/
theorem intersect_shape_invariants_witness :
    (intersect_shape ⟨⟨5, 0, 0⟩, ⟨-1, 0, 0⟩⟩ (.Box ⟨1, 1, 1⟩)).elim False
      (fun inter => inter.ts ≠ [] ∧ inter.normals.length = inter.ts.length ∧
        List.Chain' (· ≤ ·) inter.ts ∧ ∀ n ∈ inter.normals, n.dot n = 1) := by
  have hval : intersect_shape ⟨⟨5, 0, 0⟩, ⟨-1, 0, 0⟩⟩ (.Box ⟨1, 1, 1⟩) =
      some ⟨[4, 6], [⟨1, 0, 0⟩, ⟨-1, 0, 0⟩], true⟩ := by
    norm_num [intersect_shape, rustDiv, rustMin, rustMax, F64.ltb, F64.leb,
      F64.toReal, normalize_axis, rustSignum, V3.component_div, V3.scale,
      V3.dot]
  rw [hval]
  exact intersect_shape_invariants ⟨⟨5, 0, 0⟩, ⟨-1, 0, 0⟩⟩ (.Box ⟨1, 1, 1⟩)
    (by intro hz; rw [V3.eq_zero_iff] at hz; norm_num at hz) _ hval

theorem sqrt_thirtysix_eq : Real.sqrt 36 = 6 := by
  rw [show (36 : ℝ) = 6 ^ 2 by norm_num, Real.sqrt_sq (by norm_num : (0 : ℝ) ≤ 6)]

/-- Every intersection returned by `intersect_shape` carries exactly one
normal per root. -/
theorem intersect_shape_lengths (ray : Ray) (shape : Shape)
    (inter : Intersection) (h : intersect_shape ray shape = some inter) :
    inter.normals.length = inter.ts.length := by
  cases shape with
  | Plane normal =>
      simp only [intersect_shape] at h
      split_ifs at h <;>
        first
          | exact Option.noConfusion h
          | (injection h with h'; subst h'; simp)
  | Ellipsoid r =>
      simp only [intersect_shape] at h
      rw [Option.map_eq_some'] at h
      obtain ⟨tso, _, hg⟩ := h
      subst hg
      simp
  | Box s =>
      simp only [intersect_shape] at h
      rw [Option.map_eq_some'] at h
      obtain ⟨tso, _, hg⟩ := h
      subst hg
      simp

/-- Sum of a function over zipped lists of equal length, as a positional
sum. -/
theorem zip_map_sum_eq_fin_sum {α β : Type} (ts : List α) (ns : List β)
    (da : α) (d : β) (f : α × β → ℝ) (hlen : ns.length = ts.length) :
    ((ts.zip ns).map f).sum =
      ∑ i : Fin ts.length, f (ts.getD i.1 da, ns.getD i.1 d) := by
  induction ts generalizing ns with
  | nil => simp
  | cons a ts ih =>
      cases ns with
      | nil => simp at hlen
      | cons b ns =>
          simp only [List.length_cons, Nat.succ.injEq] at hlen
          rw [List.zip_cons_cons, List.map_cons, List.sum_cons, ih ns hlen]
          simp only [List.length_cons]
          rw [Fin.sum_univ_succ]
          simp

/-- Amended claim C2: `LightSourceDistr::pdf` intersects the *untransformed*
ray `(origin, direction)` against the primitive's shape in its canonical
local frame (the primitive's position and rotation do not enter the
intersection; only the local-density evaluation maps the hit point into the
primitive's local frame), returns `0` on a miss, and otherwise sums over all
roots the local area density times
`|origin to hit| squared / |normal_hit . omega|` where `omega` is the
normalised origin-to-hit vector. -/
theorem LightSourceDistr_pdf_sum_over_roots (primitive : Primitive)
    (point_from normal_from direction : V3) :
    (intersect_shape ⟨point_from, direction⟩ primitive.shape = none →
      LightSourceDistr_pdf primitive point_from normal_from direction = 0) ∧
    (∀ inter, intersect_shape ⟨point_from, direction⟩ primitive.shape = some inter →
      LightSourceDistr_pdf primitive point_from normal_from direction =
        ∑ i : Fin inter.ts.length,
          light_local_pdf primitive.shape
            (primitive.rotation.conjugate.transform_vector
              (point_from + V3.scale (inter.ts.getD i.1 0) direction -
                primitive.position)) *
          ((point_from + V3.scale (inter.ts.getD i.1 0) direction -
              point_from).norm_squared /
            |(inter.normals.getD i.1 0).dot
              (point_from + V3.scale (inter.ts.getD i.1 0) direction -
                point_from).normalize|)) := by
  constructor
  · intro hmiss
    unfold LightSourceDistr_pdf
    rw [hmiss]
  · intro inter hhit
    have hlen := intersect_shape_lengths _ _ _ hhit
    unfold LightSourceDistr_pdf
    rw [hhit]
    dsimp only
    rw [zip_map_sum_eq_fin_sum inter.ts inter.normals 0 0 _ hlen]

/-- Witness for the amended C2: the pdf of the light-source distribution for
a unit box positioned at `(10,0,0)`, queried from `(-5,0,0)` toward
`(1,0,0)`, is `(1/24)*16 + (1/24)*36 = 13/6` — the sum over the two roots of
the canonical-frame intersection. -/
theorem LightSourceDistr_pdf_sum_over_roots_witness :
    LightSourceDistr_pdf ⟨.Box ⟨1, 1, 1⟩, 0, ⟨10, 0, 0⟩, ⟨1, 0, 0, 0⟩, .DIFFUSE, 0⟩
      ⟨-5, 0, 0⟩ 0 ⟨1, 0, 0⟩ = 13 / 6 := by
  have hval : intersect_shape ⟨⟨-5, 0, 0⟩, ⟨1, 0, 0⟩⟩ (Shape.Box ⟨1, 1, 1⟩) =
      some ⟨[4, 6], [⟨-1, 0, 0⟩, ⟨1, 0, 0⟩], true⟩ := by
    norm_num [intersect_shape, rustDiv, rustMin, rustMax, F64.ltb, F64.leb,
      F64.toReal, normalize_axis, rustSignum, V3.component_div, V3.scale, V3.dot]
  have h := (LightSourceDistr_pdf_sum_over_roots
      ⟨.Box ⟨1, 1, 1⟩, 0, ⟨10, 0, 0⟩, ⟨1, 0, 0, 0⟩, .DIFFUSE, 0⟩
      ⟨-5, 0, 0⟩ 0 ⟨1, 0, 0⟩).2 ⟨[4, 6], [⟨-1, 0, 0⟩, ⟨1, 0, 0⟩], true⟩ hval
  rw [h]
  rw [show (⟨[4, 6], [⟨-1, 0, 0⟩, ⟨1, 0, 0⟩], true⟩ : Intersection).ts.length = 2
    from rfl]
  rw [Fin.sum_univ_two]
  norm_num [light_local_pdf, Quat.conjugate,
    Quat.transform_vector, Quat.vec, V3.cross, V3.scale, V3.dot, V3.normalize,
    V3.divS, V3.norm, V3.norm_squared, sqrt_sixteen_eq, sqrt_thirtysix_eq]

/-- Counterexample to C2 as stated: for a unit box positioned at `(10,0,0)`
(identity rotation), origin `(-5,0,0)` and direction `(1,0,0)`, the pdf the
code computes (intersecting the shape in its canonical frame, roots `4,6`)
is `13/6`, while the sum over the roots of the intersection with the
positioned primitive (roots `14,16`) is `113/6`. -/
theorem LightSourceDistr_pdf_world_frame_cex :
    LightSourceDistr_pdf
        ⟨.Box ⟨1, 1, 1⟩, 0, ⟨10, 0, 0⟩, ⟨1, 0, 0, 0⟩, .DIFFUSE, 0⟩
        ⟨-5, 0, 0⟩ 0 ⟨1, 0, 0⟩ ≠
      LightSourceDistr_pdf_claim
        ⟨.Box ⟨1, 1, 1⟩, 0, ⟨10, 0, 0⟩, ⟨1, 0, 0, 0⟩, .DIFFUSE, 0⟩
        ⟨-5, 0, 0⟩ 0 ⟨1, 0, 0⟩ := by
  have hval : intersect_shape ⟨⟨-5, 0, 0⟩, ⟨1, 0, 0⟩⟩ (Shape.Box ⟨1, 1, 1⟩) =
      some ⟨[4, 6], [⟨-1, 0, 0⟩, ⟨1, 0, 0⟩], true⟩ := by
    norm_num [intersect_shape, rustDiv, rustMin, rustMax, F64.ltb, F64.leb,
      F64.toReal, normalize_axis, rustSignum, V3.component_div, V3.scale, V3.dot]
  have hcode : LightSourceDistr_pdf
      ⟨.Box ⟨1, 1, 1⟩, 0, ⟨10, 0, 0⟩, ⟨1, 0, 0, 0⟩, .DIFFUSE, 0⟩
      ⟨-5, 0, 0⟩ 0 ⟨1, 0, 0⟩ = 13 / 6 := by
    unfold LightSourceDistr_pdf
    rw [hval]
    norm_num [light_local_pdf, Quat.conjugate, Quat.transform_vector, Quat.vec,
      V3.cross, V3.scale, V3.dot, V3.normalize, V3.divS, V3.norm,
      V3.norm_squared, sqrt_sixteen_eq, sqrt_thirtysix_eq]
  have hlocal : intersect_primitive ⟨⟨-5, 0, 0⟩, ⟨1, 0, 0⟩⟩
      ⟨.Box ⟨1, 1, 1⟩, 0, ⟨10, 0, 0⟩, ⟨1, 0, 0, 0⟩, .DIFFUSE, 0⟩ =
      some ⟨[14, 16], [⟨-1, 0, 0⟩, ⟨1, 0, 0⟩], true⟩ := by
    norm_num [intersect_primitive, to_local_ray, intersect_shape, Quat.conjugate,
      Quat.transform_vector, Quat.vec, V3.cross, rustDiv, rustMin, rustMax,
      F64.ltb, F64.leb, F64.toReal, normalize_axis, rustSignum, V3.component_div,
      V3.scale, V3.dot]
  have hclaim : LightSourceDistr_pdf_claim
      ⟨.Box ⟨1, 1, 1⟩, 0, ⟨10, 0, 0⟩, ⟨1, 0, 0, 0⟩, .DIFFUSE, 0⟩
      ⟨-5, 0, 0⟩ 0 ⟨1, 0, 0⟩ = 113 / 6 := by
    unfold LightSourceDistr_pdf_claim
    rw [hlocal]
    norm_num [light_local_pdf, Quat.conjugate, Quat.transform_vector, Quat.vec,
      V3.cross, V3.scale, V3.dot, V3.norm_squared]
  rw [hcode, hclaim]
  norm_num

/-- Claim C6: at a diffuse hit below the depth cap, with `w` the direction
the global distribution samples and `p` its density at `w`: if `p ≤ 0` or
`w·normal ≤ 0` the estimator returns exactly the primitive's emission;
otherwise it returns
`emission + (color/π) ⊙ L(shifted ray toward w, d+1) * (w·normal) / p`. -/
theorem get_ray_color_diffuse_step {R : Type} (ops : RngOps R) (scene : Scene)
    (rng : R) (distr : DistrImpl R) (ray : Ray) (depth : ℕ)
    (hdepth : depth < scene.ray_depth)
    (inter : Intersection) (prim : Primitive)
    (hhit : intersect_scene ray scene none = some (inter, prim))
    (hmat : prim.material = .DIFFUSE)
    (w : V3) (rng1 : R)
    (hsample : distr.sample rng
      (ray.point + V3.scale inter.ts.headI ray.direction)
      inter.normals.headI = some (w, rng1)) :
    ((distr.pdf (ray.point + V3.scale inter.ts.headI ray.direction)
        inter.normals.headI w ≤ 0 ∨ w.dot inter.normals.headI ≤ 0) →
      get_ray_color ops scene rng distr ray depth = some (prim.emission, rng1)) ∧
    (0 < distr.pdf (ray.point + V3.scale inter.ts.headI ray.direction)
        inter.normals.headI w →
      0 < w.dot inter.normals.headI →
      get_ray_color ops scene rng distr ray depth =
        (get_ray_color ops scene rng1 distr
            (build_shifted_ray
              (ray.point + V3.scale inter.ts.headI ray.direction) w)
            (depth + 1)).map
          fun cr =>
            (prim.emission +
              V3.divS
                (V3.scale (w.dot inter.normals.headI)
                  ((V3.divS prim.color Real.pi).component_mul cr.1))
                (distr.pdf (ray.point + V3.scale inter.ts.headI ray.direction)
                  inter.normals.headI w),
              cr.2)) := by
  constructor
  · intro hstop
    rw [get_ray_color, dif_neg (not_le.mpr hdepth), hhit]
    dsimp only
    rw [hmat]
    dsimp only
    rw [hsample]
    dsimp only
    rw [if_pos hstop]
  · intro hp hw
    rw [get_ray_color, dif_neg (not_le.mpr hdepth), hhit]
    dsimp only
    rw [hmat]
    dsimp only
    rw [hsample]
    dsimp only
    rw [if_neg (by push_neg; exact ⟨hp, hw⟩)]

/-- Witness for C6: a diffuse plane hit where the sampled direction has
non-positive cosine, so the estimator returns exactly the emission. -/
theorem get_ray_color_diffuse_step_witness :
    get_ray_color unitRngOps
      ⟨1, 1, 0, cameraZero,
        [⟨.Plane ⟨1, 0, 0⟩, ⟨1, 1, 1⟩, 0, ⟨1, 0, 0, 0⟩, .DIFFUSE, ⟨3, 4, 5⟩⟩],
        1, 0, [], 1⟩ ()
      (constPdfDistr 1) ⟨⟨-5, 0, 0⟩, ⟨1, 0, 0⟩⟩ 0 = some (⟨3, 4, 5⟩, ()) := by
  have hs : intersect_scene ⟨⟨-5, 0, 0⟩, ⟨1, 0, 0⟩⟩
      ⟨1, 1, 0, cameraZero,
        [⟨.Plane ⟨1, 0, 0⟩, ⟨1, 1, 1⟩, 0, ⟨1, 0, 0, 0⟩, .DIFFUSE, ⟨3, 4, 5⟩⟩],
        1, 0, [], 1⟩
      none =
      some (⟨[5], [⟨-1, 0, 0⟩], false⟩,
        ⟨.Plane ⟨1, 0, 0⟩, ⟨1, 1, 1⟩, 0, ⟨1, 0, 0, 0⟩, .DIFFUSE, ⟨3, 4, 5⟩⟩) := by
    have hcand : scene_candidate ⟨⟨-5, 0, 0⟩, ⟨1, 0, 0⟩⟩
        ⟨.Plane ⟨1, 0, 0⟩, ⟨1, 1, 1⟩, 0, ⟨1, 0, 0, 0⟩, .DIFFUSE, ⟨3, 4, 5⟩⟩ =
        some (⟨[5], [⟨-1, 0, 0⟩], false⟩,
          ⟨.Plane ⟨1, 0, 0⟩, ⟨1, 1, 1⟩, 0, ⟨1, 0, 0, 0⟩, .DIFFUSE, ⟨3, 4, 5⟩⟩) := by
      norm_num [scene_candidate, to_local_ray, intersect_shape, Quat.conjugate,
        Quat.transform_vector, Quat.vec, V3.cross, V3.scale, V3.dot, V3.normalize,
        V3.divS, V3.norm, V3.norm_squared]
    unfold intersect_scene
    simp only [List.filterMap_cons, List.filterMap_nil, hcand, minByFirstRoot,
      List.foldl_nil]
  have h := (get_ray_color_diffuse_step unitRngOps _ () (constPdfDistr 1)
      ⟨⟨-5, 0, 0⟩, ⟨1, 0, 0⟩⟩ 0 (by norm_num) _ _ hs rfl 0 () rfl).1
    (Or.inr (by norm_num [V3.dot]))
  exact h

/-- A fold whose step sends `some` to `some` keeps the accumulator `some`. -/
theorem foldl_preserves_some {α β : Type} (l : List α)
    (F : Option β → α → Option β)
    (hF : ∀ (b : β) (a : α), ∃ b', F (some b) a = some b') :
    ∀ b0 : β, ∃ b', l.foldl F (some b0) = some b' := by
  induction l with
  | nil => exact fun b0 => ⟨b0, rfl⟩
  | cons a l ih =>
      intro b0
      obtain ⟨b1, hb1⟩ := hF b0 a
      rw [List.foldl_cons, hb1]
      exact ih b1

/-- The estimator at the depth cap (restated as a reusable lemma). -/
theorem get_ray_color_cap_aux {R : Type} (ops : RngOps R) (scene : Scene)
    (rng : R) (distr : DistrImpl R) (ray : Ray) (depth : ℕ)
    (h : scene.ray_depth ≤ depth) :
    get_ray_color ops scene rng distr ray depth = some (BLACK, rng) := by
  rw [get_ray_color, dif_pos h]

/-- The estimator on a scene without primitives: depth cap or background. -/
theorem get_ray_color_no_primitives {R : Type} (ops : RngOps R) (scene : Scene)
    (h : scene.primitives = []) (rng : R) (distr : DistrImpl R) (ray : Ray)
    (depth : ℕ) :
    get_ray_color ops scene rng distr ray depth =
      some (if scene.ray_depth ≤ depth then BLACK else scene.background_color,
        rng) := by
  rw [get_ray_color]
  by_cases hd : scene.ray_depth ≤ depth
  · rw [dif_pos hd, if_pos hd]
  · rw [dif_neg hd, if_neg hd]
    have hnone : intersect_scene ray scene none = none := by
      unfold intersect_scene
      rw [h]
      rfl
    rw [hnone]

/-- The zero radiance channel encodes to the zero byte. -/
theorem channel_value_zero : channel_value 0 = 0 := by
  unfold channel_value aces_tonemap rustRound u8cast
  have h1 : min (max ((0 : ℝ) * (2.51 * 0 + 0.03) / (0 * (2.43 * 0 + 0.59) + 0.14)) 0)
      1.1 = 0 := by norm_num
  rw [h1]
  rw [Real.zero_rpow (by norm_num : ((1 : ℝ) / 2.2) ≠ 0)]
  norm_num

/-- The zero radiance pixel encodes to three zero bytes. -/
theorem proportion_to_value_zero : proportion_to_value 0 = [0, 0, 0] := by
  unfold proportion_to_value
  rw [show (0 : V3).x = 0 from rfl, show (0 : V3).y = 0 from rfl,
    show (0 : V3).z = 0 from rfl, channel_value_zero]

/-- With `ray_depth = 0` every sample returns black and leaves the RNG
untouched, so a pixel's sample sum is zero. -/
theorem sum_pixel_samples_depth0 {R : Type} (ops : RngOps R) (scene : Scene)
    (hdepth : scene.ray_depth = 0) (distr : DistrImpl R) (ray : Ray)
    (count : ℕ) (rng : R) :
    sum_pixel_samples ops scene distr ray count rng = some (0, rng) := by
  unfold sum_pixel_samples
  induction count with
  | zero => rfl
  | succ n ih =>
      rw [List.range_succ, List.foldl_append, ih, List.foldl_cons, List.foldl_nil]
      rw [Option.some_bind]
      rw [get_ray_color_cap_aux ops scene rng distr ray 0 (by omega)]
      rw [Option.map_some']
      show some (0 + BLACK, rng) = some (0, rng)
      have : (0 : V3) + BLACK = 0 := by
        show (⟨0 + 0, 0 + 0, 0 + 0⟩ : V3) = ⟨0, 0, 0⟩
        norm_num
      rw [this]

/-- With `ray_depth = 0` every pixel renders to three zero bytes. -/
theorem render_pixel_depth0 {R : Type} (ops : RngOps R) (scene : Scene)
    (hdepth : scene.ray_depth = 0) (distr : DistrImpl R) (row column : ℕ)
    (rng : R) :
    render_pixel ops scene distr row column rng = some ([0, 0, 0], rng) := by
  unfold render_pixel
  rw [sum_pixel_samples_depth0 ops scene hdepth, Option.map_some']
  have hdiv : V3.divS 0 (scene.samples : ℝ) = 0 := by
    show (⟨0 / (scene.samples : ℝ), 0 / (scene.samples : ℝ),
      0 / (scene.samples : ℝ)⟩ : V3) = ⟨0, 0, 0⟩
    norm_num
  rw [hdiv, proportion_to_value_zero]

/-- Inner pixel-column loop at `ray_depth = 0`: appends `3*n` zero bytes. -/
theorem render_loop_inner_depth0 {R : Type} (ops : RngOps R) (scene : Scene)
    (hdepth : scene.ray_depth = 0) (distr : DistrImpl R) (row : ℕ)
    (bytes : List ℤ) (rng : R) (n : ℕ) :
    (List.range n).foldl
      (fun acc column => acc.bind fun br =>
        (render_pixel ops scene distr row column br.2).map fun pr =>
          (br.1 ++ pr.1, pr.2))
      (some (bytes, rng)) = some (bytes ++ List.replicate (3 * n) 0, rng) := by
  induction n with
  | zero => simp
  | succ m ih =>
      rw [List.range_succ, List.foldl_append, ih, List.foldl_cons, List.foldl_nil,
        Option.some_bind, render_pixel_depth0 ops scene hdepth, Option.map_some']
      have hrep : List.replicate (3 * m) (0 : ℤ) ++ [0, 0, 0] =
          List.replicate (3 * (m + 1)) 0 := by
        rw [show 3 * (m + 1) = 3 * m + 3 by ring, List.replicate_add]
        rfl
      rw [List.append_assoc, hrep]

/-- Outer pixel-row loop at `ray_depth = 0`: appends `m * (3*width)` zero
bytes. -/
theorem render_loop_outer_depth0 {R : Type} (ops : RngOps R) (scene : Scene)
    (hdepth : scene.ray_depth = 0) (distr : DistrImpl R) (bytes : List ℤ)
    (rng : R) (m : ℕ) :
    (List.range m).foldl
      (fun accRow row =>
        (List.range scene.width).foldl
          (fun acc column => acc.bind fun br =>
            (render_pixel ops scene distr row column br.2).map fun pr =>
              (br.1 ++ pr.1, pr.2))
          accRow)
      (some (bytes, rng)) =
      some (bytes ++ List.replicate (m * (3 * scene.width)) 0, rng) := by
  induction m with
  | zero => simp
  | succ k ih =>
      rw [List.range_succ, List.foldl_append, ih, List.foldl_cons, List.foldl_nil,
        render_loop_inner_depth0 ops scene hdepth]
      have hrep : List.replicate (k * (3 * scene.width)) (0 : ℤ) ++
          List.replicate (3 * scene.width) 0 =
          List.replicate ((k + 1) * (3 * scene.width)) 0 := by
        rw [← List.replicate_add]
        congr 1
        ring
      rw [List.append_assoc, hrep]

/-- Amended claim C3: for every scene whose maximum recursion depth is `0`,
rendering produces an all-black image — every pixel is the tone-mapped,
gamma-corrected encoding of the zero radiance `(0,0,0)`, i.e. three zero
bytes — regardless of the scene's primitives and background color. -/
theorem render_depth_zero_black {R : Type} (ops : RngOps R) (fuel : ℕ)
    (scene : Scene) (rng : R) (hdepth : scene.ray_depth = 0) :
    render_scene ops fuel scene rng =
      some (List.replicate (scene.height * (3 * scene.width)) 0) := by
  unfold render_scene render_loop
  rw [render_loop_outer_depth0 ops scene hdepth _ _ rng scene.height,
    Option.map_some']
  rw [List.nil_append]

/-- Witness for the amended C3 on a concrete 1×1 scene with a primitive and
a non-black background: the image is the single black pixel. -/
theorem render_depth_zero_black_witness :
    render_scene unitRngOps 0
      ⟨1, 1, ⟨1, 1, 1⟩, cameraZero,
        [⟨.Plane ⟨1, 0, 0⟩, ⟨1, 1, 1⟩, 0, ⟨1, 0, 0, 0⟩, .DIFFUSE, ⟨3, 4, 5⟩⟩],
        0, 0, [], 1⟩ () = some [0, 0, 0] := by
  have h := render_depth_zero_black unitRngOps 0
    ⟨1, 1, ⟨1, 1, 1⟩, cameraZero,
      [⟨.Plane ⟨1, 0, 0⟩, ⟨1, 1, 1⟩, 0, ⟨1, 0, 0, 0⟩, .DIFFUSE, ⟨3, 4, 5⟩⟩],
      0, 0, [], 1⟩ () rfl
  rw [h]
  rfl

/-- The unit radiance channel encodes to a strictly positive byte. -/
theorem channel_value_one_pos : 0 < channel_value 1 := by
  have hq : aces_tonemap 1 = 127 / 158 := by
    unfold aces_tonemap
    norm_num
  have hx0 : (0 : ℝ) < 127 / 158 := by norm_num
  have hx1 : (127 / 158 : ℝ) ≤ 1 := by norm_num
  have hlow : (127 / 158 : ℝ) ≤ (127 / 158 : ℝ) ^ ((1 : ℝ) / 2.2) := by
    have h := Real.rpow_le_rpow_of_exponent_ge hx0 hx1
      (by norm_num : (1 : ℝ) / 2.2 ≤ 1)
    rwa [Real.rpow_one] at h
  have hup : (127 / 158 : ℝ) ^ ((1 : ℝ) / 2.2) ≤ 1 :=
    Real.rpow_le_one (le_of_lt hx0) hx1 (by norm_num)
  unfold channel_value
  rw [hq]
  unfold rustRound u8cast
  have hnn : (0 : ℝ) ≤ (127 / 158 : ℝ) ^ ((1 : ℝ) / 2.2) * 255 := by positivity
  rw [if_pos hnn]
  have hfl : (205 : ℤ) ≤ ⌊(127 / 158 : ℝ) ^ ((1 : ℝ) / 2.2) * 255 + 1 / 2⌋ := by
    rw [Int.le_floor]
    push_cast
    nlinarith [hlow]
  have hfu : ⌊(127 / 158 : ℝ) ^ ((1 : ℝ) / 2.2) * 255 + 1 / 2⌋ ≤ 255 := by
    have hb : (127 / 158 : ℝ) ^ ((1 : ℝ) / 2.2) * 255 + 1 / 2 ≤ 255.5 := by
      nlinarith [hup]
    calc ⌊(127 / 158 : ℝ) ^ ((1 : ℝ) / 2.2) * 255 + 1 / 2⌋ ≤ ⌊(255.5 : ℝ)⌋ :=
          Int.floor_le_floor hb
      _ = 255 := by norm_num [Int.floor_eq_iff]
  rw [min_eq_right hfu, max_eq_right (by omega)]
  omega

/-- Counterexample to C3 as stated: a 1×1 scene with `ray_depth = 0` and
background `(1,1,1)` renders to the black pixel `[0,0,0]`, not to the
tone-mapped encoding of the background color (whose channels are at least
205). -/
theorem render_depth_zero_not_background_cex :
    render_scene unitRngOps 0 ⟨1, 1, ⟨1, 1, 1⟩, cameraZero, [], 0, 0, [], 1⟩ () ≠
      some (proportion_to_value ⟨1, 1, 1⟩) := by
  have hl : render_scene unitRngOps 0
      ⟨1, 1, ⟨1, 1, 1⟩, cameraZero, [], 0, 0, [], 1⟩ () = some [0, 0, 0] := by
    unfold render_scene render_loop
    rw [render_loop_outer_depth0 unitRngOps
      ⟨1, 1, ⟨1, 1, 1⟩, cameraZero, [], 0, 0, [], 1⟩ rfl _ _ _ _]
    rfl
  rw [hl]
  intro hcontra
  simp only [Option.some.injEq, proportion_to_value] at hcontra
  have h1 := channel_value_one_pos
  have hhead : (0 : ℤ) = channel_value (⟨1, 1, 1⟩ : V3).x := by
    exact (List.cons.injEq _ _ _ _).mp hcontra |>.1
  rw [show ((⟨1, 1, 1⟩ : V3)).x = 1 from rfl] at hhead
  omega

/-- A scene with no primitives renders to completion (no abort), even though
its light-source mixture member list is empty: no sample is ever drawn. -/
theorem render_scene_no_primitives_isSome {R : Type} (ops : RngOps R)
    (fuel : ℕ) (scene : Scene) (rng : R) (h : scene.primitives = []) :
    (render_scene ops fuel scene rng).isSome = true := by
  unfold render_scene render_loop
  have hsamples : ∀ (ray : Ray) (count : ℕ) (r : R),
      ∃ v, sum_pixel_samples ops scene (global_distr_of_scene ops fuel scene)
        ray count r = some v := by
    intro ray count r
    unfold sum_pixel_samples
    refine foldl_preserves_some _ _ ?_ _
    intro b _
    rw [Option.some_bind, get_ray_color_no_primitives ops scene h,
      Option.map_some']
    exact ⟨_, rfl⟩
  have hpixel : ∀ (row column : ℕ) (r : R),
      ∃ v, render_pixel ops scene (global_distr_of_scene ops fuel scene)
        row column r = some v := by
    intro row column r
    unfold render_pixel
    obtain ⟨v, hv⟩ := hsamples (pixel_ray scene row column) scene.samples r
    rw [hv, Option.map_some']
    exact ⟨_, rfl⟩
  have hloop : ∃ v, (List.range scene.height).foldl
      (fun accRow row =>
        (List.range scene.width).foldl
          (fun acc column => acc.bind fun br =>
            (render_pixel ops scene (global_distr_of_scene ops fuel scene)
              row column br.2).map fun pr => (br.1 ++ pr.1, pr.2))
          accRow)
      (some ([], rng)) = some v := by
    refine foldl_preserves_some _ _ ?_ _
    intro b row
    refine foldl_preserves_some _ _ ?_ _
    intro b' column
    rw [Option.some_bind]
    obtain ⟨v, hv⟩ := hpixel row column b'.2
    rw [hv, Option.map_some']
    exact ⟨_, rfl⟩
  obtain ⟨v, hv⟩ := hloop
  rw [hv]
  rfl

/-- Amended claim C7: an empty sampling mixture is not detected before
rendering begins.  `MixDistr::sample` on an empty member list fails only at
the moment it is invoked (the `choose(..).expect(..)` panic), `MixDistr::pdf`
on an empty member list returns a plain non-error value, and `render_scene`
performs no emptiness check: on a scene whose light-source mixture member
list is empty it runs to completion as long as no sample is drawn. -/
theorem empty_mixture_behavior {R : Type} (ops : RngOps R) :
    (∀ (rng : R) (point_from normal : V3),
      (MixDistr ops ([] : List (DistrImpl R))).sample rng point_from normal =
        none) ∧
    (∀ point_from normal dir : V3,
      (MixDistr ops ([] : List (DistrImpl R))).pdf point_from normal dir = 0) ∧
    (∀ (fuel : ℕ) (scene : Scene) (rng : R), scene.primitives = [] →
      (render_scene ops fuel scene rng).isSome = true) := by
  refine ⟨fun rng p n => rfl, fun p n d => ?_, ?_⟩
  · simp [MixDistr]
  · intro fuel scene rng h
    exact render_scene_no_primitives_isSome ops fuel scene rng h

/-- Witness for the amended C7: the concrete empty mixture fails on `sample`
and a concrete primitive-less scene renders to completion. -/
theorem empty_mixture_behavior_witness :
    (MixDistr unitRngOps ([] : List (DistrImpl Unit))).sample () 0 0 = none ∧
    (MixDistr unitRngOps ([] : List (DistrImpl Unit))).pdf 0 0 0 = 0 ∧
    (render_scene unitRngOps 0 ⟨1, 1, 0, cameraZero, [], 1, 0, [], 1⟩ ()).isSome
      = true :=
  ⟨(empty_mixture_behavior unitRngOps).1 () 0 0,
   (empty_mixture_behavior unitRngOps).2.1 0 0 0,
   (empty_mixture_behavior unitRngOps).2.2 0 _ () rfl⟩

/-- Counterexample to C7 as stated: for the primitive-less scene the
constructed light-source mixture member list is empty, yet the renderer does
not abort before estimating pixels — it completes and returns an image —
while sampling from an empty mixture fails only when `sample` is invoked and
`pdf` of an empty mixture returns a plain value. -/
theorem empty_mixture_not_detected_cex :
    ((⟨1, 1, 0, cameraZero, [], 1, 0, [], 1⟩ : Scene).primitives.filter
        fun primitive =>
          match primitive.shape with
          | .Plane _ => false
          | _ => true) = [] ∧
    (render_scene unitRngOps 0 ⟨1, 1, 0, cameraZero, [], 1, 0, [], 1⟩ ()).isSome
      = true ∧
    (MixDistr unitRngOps ([] : List (DistrImpl Unit))).sample () 0 0 = none ∧
    (MixDistr unitRngOps ([] : List (DistrImpl Unit))).pdf 0 0 0 = 0 := by
  refine ⟨rfl, ?_, rfl, ?_⟩
  · exact render_scene_no_primitives_isSome unitRngOps 0 _ () rfl
  · simp [MixDistr]
